import Mathlib

/-!
Verification development for the Monero proof-of-work mining simulator.

The definitions below are a shallow embedding of the simulator's core
(`src/main.js` sections 3-5, `src/sim_core.js`, and
`src/plugins/unified_pool_agent.js`).  JavaScript values are modelled as
follows:

* `Number` used as a simulation clock (float seconds) is modelled as `ℚ`
  (the spec requires exact numeric comparisons; float subtraction of two
  distinct doubles never rounds to zero, so signs of comparisons agree);
* `BigInt` is modelled as `Int`;
* plain objects used as string-keyed dictionaries are modelled as
  insertion-ordered association lists (`SMap`), matching the enumeration
  order of non-index string keys in JavaScript objects;
* `null`/`undefined` are modelled with `Option`;
* `String.prototype.localeCompare` is modelled as the CLDR root collation
  (primary weights place punctuation before digits before case-folded
  letters; case decides only full primary ties), exact on the simulator's
  identifier alphabet of digits, ASCII letters and `'_'`;
* a thrown `TypeError` (property access on `undefined`/`null`, BigInt
  arithmetic with `null`) is modelled by an `Option.none` result of the
  embedded function.
-/

namespace MoneroSim

/-- Insertion-ordered string-keyed map, modelling a JavaScript plain object
(for the key shapes used by the simulator: pool ids and `"<height>_<poolId>"`
block ids, which are never array indices, so JS preserves insertion order). -/
abbrev SMap (α : Type) : Type := List (String × α)

namespace SMap

/-- Property read `m[k]`; `none` models `undefined`. -/
def get {α : Type} (m : SMap α) (k : String) : Option α :=
  (m.find? (fun p => p.1 = k)).map (·.2)

/-- Key-membership test (`k in m`). -/
def hasKey {α : Type} (m : SMap α) (k : String) : Bool :=
  m.any (fun p => p.1 = k)

/-- Property write `m[k] = v`: replaces in place when the key exists
(keeping its insertion position), appends otherwise.  Keys of a JS object
are unique, so replacing the first occurrence is replacing the occurrence. -/
def set {α : Type} : SMap α → String → α → SMap α
  | [], k, v => [(k, v)]
  | p :: rest, k, v => if p.1 = k then (k, v) :: rest else p :: set rest k v

/-- Key removal (`Map.delete` / `Set.delete`). -/
def erase {α : Type} (m : SMap α) (k : String) : SMap α :=
  m.filter (fun p => ¬ p.1 = k)

/-- The insertion-ordered key list (`for (const k in m)` enumeration). -/
def keys {α : Type} (m : SMap α) : List String :=
  m.map (·.1)

end SMap

/-- JavaScript truthiness of a nullable BigInt: `null` and `0n` are falsy. -/
def jsTruthyInt : Option Int → Bool
  | none => false
  | some n => n ≠ 0

/-- A nullable BigInt as it participates in JS relational comparisons:
`null` is converted to the number `0`. -/
def jsNum (v : Option Int) : Int := v.getD 0

/-- JS array read `l[i]` for a possibly negative integer index
(`undefined` out of range, as for the trimmed difficulty window). -/
def jsListGet (l : List Int) (i : Int) : Option Int :=
  if 0 ≤ i then l.get? i.toNat else none

-- -----------------------------------------------------------------------------
-- Difficulty engine (`calculateNextDifficulty`, src/main.js:1211-1256 and
-- src/sim_core.js:236-275, identical algorithm)
-- -----------------------------------------------------------------------------

/-- The difficulty-adjustment constants `DIFFICULTY_TARGET_V2`,
`DIFFICULTY_WINDOW`, `DIFFICULTY_LAG`, `DIFFICULTY_CUT`. -/
structure DiffParams where
  target : Int
  window : Nat
  lag : Nat
  cut : Nat
deriving Repr, DecidableEq

/-- One entry of a per-chaintip `DifficultyWindow`. -/
structure DiffEntry where
  timestamp : Int
  cumDifficulty : Int
deriving Repr, DecidableEq

/-- The last `n` elements of a list (JS `arr.slice(-n)` for `n ≥ 1`). -/
def takeLast {α : Type} (l : List α) (n : Nat) : List α :=
  l.drop (l.length - n)

/-- JS `arr.slice(0, -lag)`.  For `lag = 0` the bound `-0` is `0`, so the
result is empty — exactly as in the source. -/
def sliceDropLast {α : Type} (l : List α) (lag : Nat) : List α :=
  if lag = 0 then [] else l.take (l.length - lag)

/-- JS `arr.slice(-w)`.  For `w = 0` the bound `-0` is `0` and the whole
list is kept — exactly as in the source. -/
def sliceLastWindow {α : Type} (l : List α) (w : Nat) : List α :=
  if w = 0 then l else takeLast l w

/-- JS `arr.sort((a, b) => a.timestamp - b.timestamp)`: a stable ascending
sort by timestamp. -/
def sortByTimestamp (l : List DiffEntry) : List DiffEntry :=
  l.mergeSort (fun a b => a.timestamp ≤ b.timestamp)

/-- Shallow embedding of `calculateNextDifficulty` applied to the difficulty
window of the chaintip (the source first looks the window up in
`diffWindows`, reconstructing it on a miss; the window contents are the
argument here).  `none` models the exception the source would raise when the
cut indices fall outside the trimmed array (`BigInt(NaN)`). -/
def calculateNextDifficulty (P : DiffParams) (win : List DiffEntry) : Option Int :=
  let dw := sortByTimestamp (sliceLastWindow (sliceDropLast win P.lag) P.window)
  let timestamps := dw.map (·.timestamp)
  let cumDiffs := dw.map (·.cumDifficulty)
  let len : Int := (dw.length : Int)
  if len ≤ 1 then some 1 else
  let wcut : Int := (P.window : Int) - 2 * (P.cut : Int)
  let cutBegin : Int := if len ≤ wcut then 0 else (len - wcut + 1).fdiv 2
  let cutEnd : Int := if len ≤ wcut then len else cutBegin + wcut
  (jsListGet timestamps (cutEnd - 1)).bind fun tsHi =>
  (jsListGet timestamps cutBegin).bind fun tsLo =>
  (jsListGet cumDiffs (cutEnd - 1)).bind fun cdHi =>
  (jsListGet cumDiffs cutBegin).map fun cdLo =>
  let timeSpan : Int := if tsHi - tsLo = 0 then 1 else tsHi - tsLo
  let totalWork : Int := cdHi - cdLo
  let newDifficulty : Int := Int.tdiv (totalWork * P.target + timeSpan - 1) timeSpan
  if newDifficulty ≤ 0 then 1 else newDifficulty

/-- The cut-trimmed-window algorithm exactly as the specification words it:
take the last `W + L` entries, drop the last `L`, sort the at most `W`
remaining entries by timestamp ascending; return 1 when at most one entry
remains; otherwise trim with the cut indices and return
`ceil(totalWork · target / timeSpan)` clamped to at least 1, with
`timeSpan = max(1, ...)` exact integer arithmetic throughout. -/
def specNextDifficulty (P : DiffParams) (win : List DiffEntry) : Int :=
  let sel := takeLast win (P.window + P.lag)
  let entries := sortByTimestamp (sel.take (sel.length - P.lag))
  let len : Int := (entries.length : Int)
  if len ≤ 1 then 1 else
  let wcut : Int := (P.window : Int) - 2 * (P.cut : Int)
  let cutBegin : Int := if len ≤ wcut then 0 else (len - wcut + 1).fdiv 2
  let cutEnd : Int := if len ≤ wcut then len else cutBegin + wcut
  let ts := entries.map (·.timestamp)
  let cd := entries.map (·.cumDifficulty)
  let timeSpan : Int := max 1 ((ts.getD (cutEnd - 1).toNat 0) - (ts.getD cutBegin.toNat 0))
  let totalWork : Int := (cd.getD (cutEnd - 1).toNat 0) - (cd.getD cutBegin.toNat 0)
  max 1 ⌈(((totalWork * P.target : Int) : ℚ) / ((timeSpan : Int) : ℚ))⌉

-- -----------------------------------------------------------------------------
-- Event queue comparator (`runSimCore`, src/main.js:1368-1377)
-- -----------------------------------------------------------------------------

/-- A simulator event: `{simClock, poolId, action, chaintip, newIds}`.
`action` is one of the tag strings `"HASHER_FIND"`, `"RECV_OWN"`,
`"RECV_OTHER"`; `chaintip` is `null` on `RECV_OTHER` events; `newIds` is
`null` on `HASHER_FIND` events (and on the `RECV_OWN` copy made by
`hasherFindsBlock`) and a height-ascending list of block ids otherwise. -/
structure Event where
  simClock : ℚ
  poolId : String
  action : String
  chaintip : Option String
  newIds : Option (List String)
deriving Repr, DecidableEq

/-- CLDR root-collation primary weight of a character, restricted to the
characters the simulator's comparator can see (digits, ASCII letters and the
`"_"` of `"<height>_<poolId>"` ids): punctuation sorts before digits, digits
before letters, and a letter's primary weight ignores case. -/
def collPrimary (c : Char) : Nat :=
  if c = '_' then 1
  else if c.isDigit then 10 + c.toNat
  else if c.isUpper then 200 + (c.toNat - 65)
  else if c.isLower then 200 + (c.toNat - 97)
  else 1000 + c.toNat

/-- CLDR root-collation tertiary (case) weight: lowercase before uppercase. -/
def collTertiary (c : Char) : Nat :=
  if c.isUpper then 1 else 0

/-- Three-way lexicographic comparison of weight sequences. -/
def listCmp : List Nat → List Nat → Int
  | [], [] => 0
  | [], _ :: _ => -1
  | _ :: _, [] => 1
  | x :: xs, y :: ys =>
    if x < y then -1 else if y < x then 1 else listCmp xs ys

/-- `String.prototype.localeCompare` under Node's default ICU/CLDR root
collation: the primary weights of the whole strings are compared first, and
only a full primary tie falls through to the tertiary (case) level.  This is
not byte order: `"_" < "0"` and `"a" < "A"` here, each the reverse of the
byte comparison. -/
def lcCmp (s t : String) : Int :=
  let p := listCmp (s.data.map collPrimary) (t.data.map collPrimary)
  if p ≠ 0 then p else
    listCmp (s.data.map collTertiary) (t.data.map collTertiary)

/-- The strict order induced by the root collation: primary weights
lexicographically first, case deciding only full primary ties. -/
def CollLt (s t : String) : Prop :=
  List.Lex (· < ·) (s.data.map collPrimary) (t.data.map collPrimary) ∨
  (s.data.map collPrimary = t.data.map collPrimary ∧
    List.Lex (· < ·) (s.data.map collTertiary) (t.data.map collTertiary))

/-- The simulator's identifier alphabet: every string the comparator touches
(pool ids, action tags, `"<height>_<poolId>"` block ids, the `'0'` default)
is drawn from digits, ASCII letters and `'_'`. -/
def idChars : List Char :=
  "0123456789ABCDEFGHIJKLMNOPQRSTUVWXYZ_abcdefghijklmnopqrstuvwxyz".data

/-- Membership in the identifier alphabet. -/
def IdChar (c : Char) : Prop := c ∈ idChars

/-- A string over the identifier alphabet. -/
def IdString (s : String) : Prop := ∀ c ∈ s.data, IdChar c

instance (c : Char) : Decidable (IdChar c) := by
  unfold IdChar
  infer_instance

instance (s : String) : Decidable (IdString s) := by
  unfold IdString
  exact List.decidableBAll _ _

/-- The 5th comparator key: `Array.isArray(e.newIds) ? e.newIds.at(-1) : '0'`.
`none` models `undefined` (an empty `newIds` array). -/
def lastNewId (e : Event) : Option String :=
  match e.newIds with
  | none => some "0"
  | some l => l.getLast?

/-- The event-queue comparator of `runSimCore` (src/main.js:1368-1377): five
keys, each compared only when the earlier keys tie, the three string keys
through `localeCompare` (`lcCmp`, the root collation).  The result is the
sign of the JS comparator's number; `none` models the `TypeError` the JS
code would throw (`.localeCompare` called on `null`/`undefined`).  JS
coerces a `null`/`undefined` right-hand argument of `localeCompare` to the
strings `"null"`/`"undefined"`; mirrored exactly. -/
def compareEvents (a b : Event) : Option ℚ :=
  if a.simClock ≠ b.simClock then some (a.simClock - b.simClock)
  else if a.poolId ≠ b.poolId then some ((lcCmp a.poolId b.poolId : Int) : ℚ)
  else if a.action ≠ b.action then some ((lcCmp b.action a.action : Int) : ℚ)
  else if a.chaintip ≠ b.chaintip then
    match a.chaintip, b.chaintip with
    | none, _ => none
    | some x, none => some ((lcCmp x "null" : Int) : ℚ)
    | some x, some y => some ((lcCmp x y : Int) : ℚ)
  else
    let aN := lastNewId a
    let bN := lastNewId b
    if aN ≠ bN then
      match aN, bN with
      | none, _ => none
      | some x, none => some ((lcCmp x "undefined" : Int) : ℚ)
      | some x, some y => some ((lcCmp x y : Int) : ℚ)
    else some 0

/-- Events as the engine actually enqueues them: `chaintip` is `null`
exactly on `RECV_OTHER` events, and `newIds` is never an empty array. -/
def WFEvent (e : Event) : Prop :=
  (e.chaintip = none ↔ e.action = "RECV_OTHER") ∧ e.newIds ≠ some []

/-- The specified 5-key tuple order `(simClock, poolId, action′, chaintip,
lastNewId)`: strictly smaller simClock first; then byte-lex smaller poolId;
then the action with the byte-lex *larger* tag (so `RECV_OWN` precedes
`RECV_OTHER`); then byte-lex chaintip; then byte-lex last element of
`newIds`.  This is the SPEC's wording ("String comparisons are byte-lex"),
kept verbatim to compare against the code's collation order. -/
def specLess (a b : Event) : Prop :=
  a.simClock < b.simClock ∨ (a.simClock = b.simClock ∧
  (a.poolId < b.poolId ∨ (a.poolId = b.poolId ∧
  (b.action < a.action ∨ (a.action = b.action ∧
  ((a.chaintip.getD "") < (b.chaintip.getD "") ∨ (a.chaintip.getD "" = b.chaintip.getD "" ∧
  ((lastNewId a).getD "") < ((lastNewId b).getD ""))))))))

/-- The 5-key tuple order the code actually implements: the same keys, with
the three string keys compared under the root collation (`CollLt`) instead
of byte order. -/
def specLessColl (a b : Event) : Prop :=
  a.simClock < b.simClock ∨ (a.simClock = b.simClock ∧
  (CollLt a.poolId b.poolId ∨ (a.poolId = b.poolId ∧
  (CollLt b.action a.action ∨ (a.action = b.action ∧
  (CollLt (a.chaintip.getD "") (b.chaintip.getD "") ∨ (a.chaintip.getD "" = b.chaintip.getD "" ∧
  CollLt ((lastNewId a).getD "") ((lastNewId b).getD ""))))))))

/-- All strings of an event lie in the simulator's identifier alphabet (true
of every event the engine enqueues: pool ids and actions are fixed tags,
ids are `"<height>_<poolId>"`). -/
def IdEvent (e : Event) : Prop :=
  IdString e.poolId ∧ IdString e.action ∧
  (∀ s, e.chaintip = some s → IdString s) ∧
  (∀ l, e.newIds = some l → ∀ s ∈ l, IdString s)

-- -----------------------------------------------------------------------------
-- Data model: blocks, scores, pools
-- -----------------------------------------------------------------------------

/-- A block record, as minted by `generateBlock` (src/main.js:1183-1209) or
imported from the bootstrap history. -/
structure Block where
  simClock : ℚ
  height : Int
  poolId : String
  blockId : String
  prevId : String
  timestamp : Option Int
  difficulty : Int
  cumDifficulty : Int
  nxtDifficulty : Option Int
  broadcast : Option Bool
deriving Repr, DecidableEq

/-- The shared block table, keyed by block id. -/
abbrev Blocks := SMap Block

/-- A pool's subjective record of a block (§resolveBranch of the agent). -/
structure Score where
  simClock : ℚ
  localTime : Int
  diffScore : Option Int
  cumDiffScore : Option Int
  isHeadPath : Bool
  chaintip : Option String
deriving Repr, DecidableEq

/-- The `config.policy` strategy knobs of the unified pool agent. -/
structure Policy where
  honest : Bool
  kThresh : Int
  retortPolicy : Int
deriving Repr, DecidableEq

/-- Pool state (initializePools, src/main.js:161-185).  `honTip` starts
unset (`none`) and is written by integration step 4; `altTip` likewise.
`requestIds` is a JS `Set` (insertion-ordered, duplicate-free by
construction); `unscored` is a `Map` from block id to height. -/
structure Pool where
  id : String
  chaintip : String
  honTip : Option String
  altTip : Option String
  ntpDrift : ℚ
  scores : SMap Score
  requestIds : List String
  unscored : SMap Int
  policy : Policy
deriving Repr, DecidableEq

/-- Fuel-free decimal printer for the nonnegative part of a JS number used in
a template literal; structural on `fuel` so that it kernel-evaluates. -/
def natDigitsAux : Nat → Nat → List Char
  | 0, _ => []
  | fuel + 1, n =>
      if n = 0 then []
      else natDigitsAux fuel (n / 10) ++ [Char.ofNat (48 + n % 10)]

/-- JS template-literal rendering of an integer (`${h}`), used for block ids
`"<height>_<poolId>"`.  Heights in the simulator are positive. -/
def jsIntStr (n : Int) : String :=
  if n < 0 then "-" ++ ⟨natDigitsAux (n.toNat + 1) n.toNat⟩
  else if n = 0 then "0"
  else ⟨natDigitsAux (n.toNat + 1) n.toNat⟩

/-- The minted block id `` `${b.height + 1}_${activeEvent.poolId}` ``. -/
def mkBlockId (height : Int) (poolId : String) : String :=
  jsIntStr height ++ "_" ++ poolId

-- -----------------------------------------------------------------------------
-- Block-production physics (src/main.js:1140-1209, src/sim_core.js:165-234)
-- -----------------------------------------------------------------------------

/-- `simulateBlockTime` (src/main.js:1140-1157): schedules the pool's next
`HASHER_FIND`.  The two stochastic draws are explicit arguments: `dP2H` the
one-way pool-to-hasher delay and `dBlock` the exponential time-to-find (whose
rate is formed from `blocks[p.chaintip].nxtDifficulty`; a `null`
`nxtDifficulty` makes the rate infinite and the draw 0, it does not throw).
`none` models the TypeError when `p.chaintip` is missing from the table. -/
def simulateBlockTime (blocks : Blocks) (p : Pool) (simClock : ℚ)
    (dP2H dBlock : ℚ) : Option Event :=
  match blocks.get p.chaintip with
  | none => none
  | some _ => some {
      simClock := simClock + dP2H + dBlock,
      poolId := p.id,
      action := "HASHER_FIND",
      chaintip := some p.chaintip,
      newIds := none }

/-- Result of `hasherFindsBlock`: a silent discard, a thrown TypeError, or
exactly one pushed event. -/
inductive HasherResult
  | discard
  | crash
  | push (e : Event)
deriving Repr, DecidableEq

/-- `hasherFindsBlock` (src/main.js:1159-1181).  `dCheck` is the `owdP2H()`
draw of the staleness test, `dSend` the `owdP2H()` draw added to the pushed
event's time.  The pushed event is `{...activeEvent}` with the clock advanced
and the action replaced by `RECV_OWN`. -/
def hasherFindsBlock (blocks : Blocks) (p : Pool) (e : Event)
    (dCheck dSend : ℚ) : HasherResult :=
  if e.chaintip = some p.chaintip then
    .push { e with simClock := e.simClock + dSend, action := "RECV_OWN" }
  else
    match blocks.get p.chaintip with
    | none => .crash
    | some tip =>
        if e.chaintip = some tip.prevId then
          match p.scores.get p.chaintip with
          | none => .crash
          | some sc =>
              if e.simClock > sc.simClock + dCheck then .discard
              else .push { e with simClock := e.simClock + dSend, action := "RECV_OWN" }
        else .discard

/-- Result of `generateBlock`: the staleness early-return (`false` in JS), a
thrown TypeError, or the updated table together with the event now carrying
`newIds = [newBlockId]`. -/
inductive GenResult
  | stale
  | crash
  | minted (blocks' : Blocks) (e' : Event)
deriving Repr, DecidableEq

/-- `generateBlock` (src/main.js:1183-1209): repeat the staleness check, then
mint one block extending `blocks[e.chaintip]`. -/
def generateBlock (blocks : Blocks) (p : Pool) (e : Event) : GenResult :=
  let mint : String → GenResult := fun tid =>
    match blocks.get tid with
    | none => .crash
    | some b =>
        match b.nxtDifficulty with
        | none => .crash
        | some nd =>
            let newId := mkBlockId (b.height + 1) e.poolId
            let newBlock : Block := {
              simClock := e.simClock,
              height := b.height + 1,
              poolId := e.poolId,
              blockId := newId,
              prevId := b.blockId,
              timestamp := none,
              difficulty := nd,
              cumDifficulty := nd + b.cumDifficulty,
              nxtDifficulty := none,
              broadcast := none }
            .minted (blocks.set newId newBlock) { e with newIds := some [newId] }
  if e.chaintip = some p.chaintip then
    match e.chaintip with
    | some tid => mint tid
    | none => .crash
  else
    match blocks.get p.chaintip with
    | none => .crash
    | some tip =>
        if e.chaintip = some tip.prevId then mint tip.prevId
        else .stale

/-- The global cumulative-difficulty invariant: every block other than the
bootstrap root links to a present parent and has
`cumDifficulty = difficulty + cumDifficulty(prev)`. -/
def CumDiffInv (blocks : Blocks) (rootId : String) : Prop :=
  ∀ id blk, blocks.get id = some blk → id ≠ rootId →
    ∃ pb, blocks.get blk.prevId = some pb ∧
      blk.cumDifficulty = blk.difficulty + pb.cumDifficulty

/-- Table well-formedness: each record's `blockId` field is its key. -/
def KeysMatch (blocks : Blocks) : Prop :=
  ∀ id blk, blocks.get id = some blk → blk.blockId = id

-- -----------------------------------------------------------------------------
-- Unified pool agent (src/plugins/unified_pool_agent.js)
-- -----------------------------------------------------------------------------

/-- The agent's return contract (`Decision`): `{chaintip, honTip, timestamp,
scores, broadcastIds, requestIds}`, every field nullable.  The working
`results` object starts with `broadcastIds = []` (`some []`); the
already-scored early return uses `null` (`none`) throughout. -/
structure Decision where
  chaintip : Option String
  honTip : Option String
  timestamp : Option Int
  scores : Option (SMap Score)
  broadcastIds : Option (List String)
  requestIds : Option (List String)
deriving Repr, DecidableEq

/-- Execution state of one agent invocation.  `pScores` is the pool's live
`scores` object — mutations through aliased score objects are visible here;
`loc` is the invocation-local `scores` object; `aliased` records which `loc`
keys hold a reference to the pool's score object rather than a fresh one. -/
structure AgentSt where
  pScores : SMap Score
  loc : SMap Score
  aliased : List String
deriving Repr, DecidableEq

/-- A property write on the object bound to `scores[id]`: always updates
`loc`; when the binding aliases the pool's object (`id ∈ aliased`), the
pool's `scores[id]` is the same object, so it changes too. -/
def AgentSt.write (st : AgentSt) (id : String) (s : Score) : AgentSt :=
  { st with
    loc := st.loc.set id s,
    pScores := if id ∈ st.aliased then st.pScores.set id s else st.pScores }

/-- `scores[id] = p.scores[id]`: bind the pool's score object into `loc`. -/
def AgentSt.addAlias (st : AgentSt) (id : String) (s : Score) : AgentSt :=
  { st with loc := st.loc.set id s, aliased := st.aliased ++ [id] }

/-- `scores[id] = { ...fresh literal... }`: a brand-new score object. -/
def AgentSt.addFresh (st : AgentSt) (id : String) (s : Score) : AgentSt :=
  { st with loc := st.loc.set id s }

/-- JS `Set.add`. -/
def listAddSet (l : List String) (x : String) : List String :=
  if x ∈ l then l else l ++ [x]

/-- JS `arr.slice(0, n)` for a possibly negative BigInt-free `n`
(`retortCount` may be negative; a negative end counts from the end). -/
def jsSliceTo {α : Type} (l : List α) (n : Int) : List α :=
  if 0 ≤ n then l.take n.toNat else l.take (l.length - (-n).toNat)

/-- The fresh tentative score `resolveBranch` creates for a block first seen
through `event.newIds`. -/
def freshScore (e : Event) (p : Pool) : Score :=
  { simClock := e.simClock,
    localTime := ⌊e.simClock + p.ntpDrift⌋,
    diffScore := none, cumDiffScore := none,
    isHeadPath := false, chaintip := none }

/-- The walkback loop of `resolveBranch` (unified_pool_agent.js:194-231):
from `newTip` towards the bootstrap root, collecting scoreable ids (in walk
order, reversed by the wrapper) and missing ids, until the first block whose
pool score `isHeadPath`.  `none` models a TypeError (a `prevId` missing from
the global table) and fuel exhaustion (a table on which the JS loop would
not terminate). -/
def resolveBranchLoop (blocks : Blocks) (e : Event) (p : Pool) (nl : List String)
    (startHeight : Int) :
    Nat → String → AgentSt → List String → List String →
    Option (AgentSt × List String × String × List String)
  | 0, _, _, _, _ => none
  | fuel + 1, id, st, sIds, reqIds =>
    match st.pScores.get id with
    | some sc =>
      if sc.isHeadPath then some (st, sIds, id, reqIds)
      else
        match blocks.get id with
        | none => none
        | some blk =>
          if blk.height ≥ startHeight then
            resolveBranchLoop blocks e p nl startHeight fuel blk.prevId
              (st.addAlias id sc) (sIds ++ [id]) reqIds
          else
            resolveBranchLoop blocks e p nl startHeight fuel blk.prevId st sIds reqIds
    | none =>
      if nl.contains id then
        -- a fresh score: never `isHeadPath`, so no break is possible here
        match blocks.get id with
        | none => none
        | some blk =>
          if blk.height ≥ startHeight then
            resolveBranchLoop blocks e p nl startHeight fuel blk.prevId
              (st.addFresh id (freshScore e p)) (sIds ++ [id]) reqIds
          else
            resolveBranchLoop blocks e p nl startHeight fuel blk.prevId st sIds reqIds
      else
        match blocks.get id with
        | none => none
        | some blk =>
          resolveBranchLoop blocks e p nl startHeight fuel blk.prevId st sIds
            (listAddSet reqIds id)

/-- `scoreBlock` (unified_pool_agent.js:167-192).  The deployed manifests
configure no scoring functions (`config.scoring` absent ⇒ the adjustment
loop body never runs), so the adjustment is 0.  The `false` return (parent
not scorable) leaves the score object untouched; the `true` return writes
`diffScore` and `cumDiffScore` through the `scores[id]` binding.  `none`
models a TypeError (`blocks[id]` or the `scores[id]` binding missing). -/
def scoreBlock (blocks : Blocks) (st : AgentSt) (id : String) :
    Option (AgentSt × Bool) :=
  match blocks.get id with
  | none => none
  | some blk =>
    let prevCum : Option Int :=
      match (st.pScores.get blk.prevId).bind (·.cumDiffScore) with
      | some c => some c
      | none => (st.loc.get blk.prevId).bind (·.cumDiffScore)
    if ¬ jsTruthyInt prevCum then some (st, false)
    else
      match st.loc.get id with
      | none => none
      | some sc =>
        some
          (st.write id
            { sc with
              diffScore := some blk.difficulty
              cumDiffScore := some (prevCum.getD 0 + blk.difficulty) },
           true)

/-- The `for (const id of scoresIds)` loop of `invokePoolAgent` with its
break at the first failed `scoreBlock`. -/
def scoreLoop (blocks : Blocks) : List String → AgentSt → Option AgentSt
  | [], st => some st
  | id :: rest, st =>
    match scoreBlock blocks st id with
    | none => none
    | some (st', ok) => if ok then scoreLoop blocks rest st' else some st'

/-- Lookup in the rolling `prevIds : Map(height, [ids])`. -/
def ilookup (l : List (Int × List String)) (k : Int) : Option (List String) :=
  (l.find? (fun q => q.1 = k)).map (·.2)

/-- `prevIds.set(height, [id])` / `prevIds.get(height).push(id)`. -/
def iadd (l : List (Int × List String)) (k : Int) (id : String) :
    List (Int × List String) :=
  if (l.find? (fun q => q.1 = k)).isSome then
    l.map (fun q => if q.1 = k then (q.1, q.2 ++ [id]) else q)
  else l ++ [(k, [id])]

/-- The descendant loop of `scoreDanglingChaintips`
(unified_pool_agent.js:233-262): over the height-sorted unscored entries,
breaking when a height level has no resolved predecessors. -/
def scoreDanglingLoop (blocks : Blocks) :
    List (String × Int) → List (Int × List String) → AgentSt → Option AgentSt
  | [], _, st => some st
  | (id, height) :: rest, prevIds, st =>
    match ilookup prevIds (height - 1) with
    | none => some st
    | some ids =>
      match blocks.get id with
      | none => none
      | some blk =>
        if blk.prevId ∈ ids then
          match st.pScores.get id with
          | none => none
          | some psc =>
            match scoreBlock blocks (st.addAlias id psc) id with
            | none => none
            | some (st', ok) =>
              scoreDanglingLoop blocks rest
                (if ok then iadd prevIds height id else prevIds) st'
        else scoreDanglingLoop blocks rest prevIds st

/-- `scoreDanglingChaintips`: no-op unless the new tip just received a truthy
`cumDiffScore`; otherwise score the waiting descendants, lowest height
first (`Array.prototype.sort` is stable). -/
def scoreDanglingChaintips (blocks : Blocks) (unscored : SMap Int)
    (st : AgentSt) (newTip : String) : Option AgentSt :=
  if ¬ jsTruthyInt ((st.loc.get newTip).bind (·.cumDiffScore)) then some st
  else
    match blocks.get newTip with
    | none => none
    | some nb =>
      let uns := (unscored.filter (fun q => q.2 > nb.height)).mergeSort
        (fun a b => a.2 ≤ b.2)
      scoreDanglingLoop blocks uns [(nb.height, [newTip])] st

/-- `findHighestScore` (unified_pool_agent.js:264-275): fold over the local
`scores` in insertion order, `maxTip = [0n, null]` initially; the JS `>`
compares a `null` score as the number 0. -/
def findHighestScore (loc : SMap Score) : Option Int × Option String :=
  loc.foldl
    (fun acc q =>
      if jsNum q.2.cumDiffScore > jsNum acc.1 then (q.2.cumDiffScore, some q.1)
      else acc)
    (some 0, none)

/-- The walk from the stored `honTip` to the common ancestor:
`while (!p.scores[commonAncestor].isHeadPath) commonAncestor =
blocks[commonAncestor].prevId` (reading the pool's live score objects). -/
def ancestorWalk (blocks : Blocks) (pS : SMap Score) :
    Nat → String → Option String
  | 0, _ => none
  | fuel + 1, id =>
    match pS.get id with
    | none => none
    | some sc =>
      if sc.isHeadPath then some id
      else
        match blocks.get id with
        | none => none
        | some blk => ancestorWalk blocks pS fuel blk.prevId

/-- `while (!blocks[id].broadcast) { unbroadcast.push(id); id = prevId }`:
the consecutive unbroadcast ids from `id` downward (tip first; the caller
reverses, as the JS does). -/
def unbroadcastWalk (blocks : Blocks) : Nat → String → Option (List String)
  | 0, _ => none
  | fuel + 1, id =>
    match blocks.get id with
    | none => none
    | some blk =>
      if blk.broadcast.getD false then some []
      else (unbroadcastWalk blocks fuel blk.prevId).map (fun l => id :: l)

/-- The nullish coalescing read
`scores[id]?.cumDiffScore ?? p.scores[id].cumDiffScore` (the fallback read is
not optional: a missing pool entry throws, hence the outer `Option`). -/
def nullishScore (st : AgentSt) (id : String) : Option (Option Int) :=
  match (st.loc.get id).bind (·.cumDiffScore) with
  | some c => some (some c)
  | none =>
    match st.pScores.get id with
    | none => none
    | some psc => some psc.cumDiffScore

/-- The common tail of `executeSelfishStrategy`
(unified_pool_agent.js:121-165): branch lengths, the three policy scalars,
abandon, and the broadcast decision. -/
def selfishCore (blocks : Blocks) (e : Event) (p : Pool) (st : AgentSt)
    (selfTip honTip commonAncestor : String) (honAdded : Int)
    (maxTip : Option Int × Option String) (results : Decision) (fuel : Nat) :
    Option Decision :=
  match blocks.get commonAncestor, blocks.get honTip, blocks.get selfTip with
  | some ba, some bh, some bs =>
    let honLength := bh.height - ba.height
    let selfLength := bs.height - ba.height
    let kNew := selfLength - honLength
    let zeroPrimeBump : Int :=
      if selfLength > 1 ∧ kNew = 1 ∧ e.action = "RECV_OWN" then 2 else 1
    let abandonThresh := honLength * (min 0 p.policy.kThresh - kNew)
    let claimThresh := honLength * (max 0 p.policy.kThresh - kNew + zeroPrimeBump)
    let retortCount := min (p.policy.retortPolicy * honAdded) (honAdded + 1)
    if abandonThresh > 0 ∨ selfLength = 0 then
      some { results with chaintip := maxTip.2 }
    else
      let unbroadcast? : Option (List String) :=
        if claimThresh > 0 ∨ retortCount > 0 then
          match results.chaintip with
          | none => none
          | some startId => (unbroadcastWalk blocks fuel startId).map List.reverse
        else some []
      match unbroadcast? with
      | none => none
      | some unbroadcast =>
        let bc := if claimThresh > 0 then unbroadcast
                  else jsSliceTo unbroadcast retortCount
        let results1 := { results with broadcastIds := some bc }
        match bc.getLast? with
        | none => some results1
        | some bcTip =>
          match nullishScore st bcTip, nullishScore st honTip with
          | some bcScore, some honScore =>
            if jsNum bcScore > jsNum honScore then
              some { results1 with honTip := some bcTip }
            else some results1
          | _, _ => none
  | _, _, _ => none

/-- `executeSelfishStrategy` (unified_pool_agent.js:83-165): the `RECV_OWN` /
`RECV_OTHER` head, then `selfishCore`. -/
def executeSelfishStrategy (blocks : Blocks) (e : Event) (p : Pool)
    (st : AgentSt) (newTip : String) (ancestorId : String)
    (maxTip : Option Int × Option String) (results : Decision) (fuel : Nat) :
    Option Decision :=
  if e.action = "RECV_OWN" then
    match p.honTip with
    | none => none
    | some honTip0 =>
      match ancestorWalk blocks st.pScores fuel honTip0 with
      | none => none
      | some ca0 =>
        let edge? : Option Bool :=
          if ((st.pScores.get honTip0).map (·.isHeadPath)).getD false then
            match blocks.get newTip, blocks.get honTip0 with
            | some bs, some bh => some (bs.height = bh.height)
            | _, _ => none
          else some false
        match edge? with
        | none => none
        | some edge =>
          let ca? : Option String :=
            if edge then (blocks.get honTip0).map (·.prevId) else some ca0
          match ca? with
          | none => none
          | some ca =>
            match st.loc.get newTip with
            | none => none
            | some ntSc =>
              selfishCore blocks e p st newTip honTip0 ca 0 maxTip
                { results with
                    chaintip := some newTip
                    timestamp := some ntSc.localTime }
                fuel
  else
    match maxTip.2 with
    | none => some { results with chaintip := some p.chaintip }
    | some mt =>
      match p.honTip with
      | none => none
      | some storedHon =>
        match blocks.get mt, blocks.get storedHon with
        | some bm, some bsh =>
          selfishCore blocks e p st p.chaintip mt ancestorId
            (bm.height - bsh.height) maxTip
            { results with honTip := some mt } fuel
        | _, _ => none

/-- The `for (const id in scores)` pass of `propagateHeadPathToScores`:
give every score without a chaintip the decision's chaintip. -/
def setChaintips (st : AgentSt) (ct : Option String) : AgentSt :=
  st.loc.foldl
    (fun acc q =>
      if q.2.chaintip = none then acc.write q.1 { q.2 with chaintip := ct }
      else acc)
    st

/-- The forward walk of `propagateHeadPathToScores`: from the chosen
chaintip, setting `isHeadPath := true` (pulling the pool's score object into
`scores` when absent), until the old chaintip or the ancestor; returns the
stopping id. -/
def propagateTrueLoop (blocks : Blocks) (pCh anc : String) :
    Nat → String → AgentSt → Option (AgentSt × String)
  | 0, _, _ => none
  | fuel + 1, id, st =>
    if id = pCh ∨ id = anc then some (st, id)
    else
      match (match st.loc.get id with
             | some sc => some sc
             | none => st.pScores.get id) with
      | none => none
      | some sc =>
        let st1 := if (st.loc.get id).isSome then st else st.addAlias id sc
        let st2 := st1.write id { sc with isHeadPath := true }
        match blocks.get id with
        | none => none
        | some blk => propagateTrueLoop blocks pCh anc fuel blk.prevId st2

/-- The reorg walk: from the old chaintip back to the ancestor, clearing
`isHeadPath`. -/
def propagateFalseLoop (blocks : Blocks) (anc : String) :
    Nat → String → AgentSt → Option AgentSt
  | 0, _, _ => none
  | fuel + 1, id, st =>
    if id = anc then some st
    else
      match (match st.loc.get id with
             | some sc => some sc
             | none => st.pScores.get id) with
      | none => none
      | some sc =>
        let st1 := if (st.loc.get id).isSome then st else st.addAlias id sc
        let st2 := st1.write id { sc with isHeadPath := false }
        match blocks.get id with
        | none => none
        | some blk => propagateFalseLoop blocks anc fuel blk.prevId st2

/-- `propagateHeadPathToScores` (unified_pool_agent.js:277-306). -/
def propagateHeadPathToScores (blocks : Blocks) (p : Pool) (st : AgentSt)
    (ancestorId : String) (results : Decision) (fuel : Nat) :
    Option AgentSt :=
  let st0 := setChaintips st results.chaintip
  match results.chaintip with
  | none => none
  | some startId =>
    match propagateTrueLoop blocks p.chaintip ancestorId fuel startId st0 with
    | none => none
    | some (st1, stopId) =>
      if stopId = ancestorId then
        propagateFalseLoop blocks ancestorId fuel p.chaintip st1
      else some st1

/-- `invokePoolAgent` (unified_pool_agent.js:26-81): the full agent
invocation.  The returned pair is `(Decision, pool.scores after the
invocation)` — the second component exposes the in-place mutations the
invocation performs on the pool's score objects through aliasing.  `none`
models a thrown TypeError anywhere in the flow. -/
def invokePoolAgent (e : Event) (p : Pool) (blocks : Blocks) (fuel : Nat) :
    Option (Decision × SMap Score) :=
  match e.newIds with
  | none => none
  | some nl =>
    let newTip? := nl.getLast?
    let already : Bool :=
      match newTip? with
      | none => false
      | some nt => jsTruthyInt ((p.scores.get nt).bind (·.cumDiffScore))
    if already then
      some ({ chaintip := some p.chaintip, honTip := p.honTip, timestamp := none,
              scores := none, broadcastIds := none, requestIds := none },
            p.scores)
    else
      match nl.head? with
      | none => none
      | some firstId =>
        match blocks.get firstId with
        | none => none
        | some fb =>
          match newTip? with
          | none => none
          | some newTip =>
            let st0 : AgentSt := ⟨p.scores, [], []⟩
            match resolveBranchLoop blocks e p nl fb.height fuel newTip st0 [] [] with
            | none => none
            | some (st1, sIdsWalk, ancestorId, reqIds) =>
              match scoreLoop blocks sIdsWalk.reverse st1 with
              | none => none
              | some st2 =>
                match scoreDanglingChaintips blocks p.unscored st2 newTip with
                | none => none
                | some st3 =>
                  let maxTip := findHighestScore st3.loc
                  let results0 : Decision :=
                    { chaintip := some p.chaintip, honTip := none,
                      timestamp := none, scores := none,
                      broadcastIds := some [],
                      requestIds := if reqIds.isEmpty then none else some reqIds }
                  let decision? : Option Decision :=
                    if p.policy.honest then
                      match st3.pScores.get p.chaintip with
                      | none => none
                      | some ptip =>
                        let c1 : Option String :=
                          if jsNum maxTip.1 > jsNum ptip.cumDiffScore then maxTip.2
                          else some p.chaintip
                        if e.action = "RECV_OWN" then
                          let c2 : Option String :=
                            if maxTip.1 = ptip.cumDiffScore then maxTip.2 else c1
                          match st3.loc.get newTip with
                          | none => none
                          | some ntSc =>
                            some { results0 with
                                     chaintip := c2
                                     timestamp := some ntSc.localTime
                                     broadcastIds := some [newTip] }
                        else some { results0 with chaintip := c1 }
                    else
                      executeSelfishStrategy blocks e p st3 newTip ancestorId
                        maxTip results0 fuel
                  match decision? with
                  | none => none
                  | some results1 =>
                    match propagateHeadPathToScores blocks p st3 ancestorId
                        results1 fuel with
                    | none => none
                    | some st4 =>
                      some ({ results1 with scores := some st4.loc },
                            st4.pScores)

-- -----------------------------------------------------------------------------
-- Decision integration (`integrateStrategyResults`, src/main.js:1284-1353,
-- with `broadcastBlock` src/main.js:1258-1278 and `reconstructDiffWindow`
-- src/main.js:631-642 / 954-966)
-- -----------------------------------------------------------------------------

/-- The walk of `reconstructDiffWindow`: up to `count` ancestors from `id`,
tip first (the wrapper reverses into chronological order).  `none` models a
TypeError (walking off the table; the bootstrap guarantees `W + L` rows) and
covers the unreachable null-timestamp case. -/
def reconWalk (blocks : Blocks) : Nat → String → Option (List DiffEntry)
  | 0, _ => some []
  | n + 1, id =>
    match blocks.get id with
    | none => none
    | some b =>
      match b.timestamp with
      | none => none
      | some ts =>
        (reconWalk blocks n b.prevId).map (fun l => ⟨ts, b.cumDifficulty⟩ :: l)

/-- `reconstructDiffWindow(blockId)`: `W + L` entries ending at `blockId`,
chronological. -/
def reconstructDiffWindow (P : DiffParams) (blocks : Blocks) (id : String) :
    Option (List DiffEntry) :=
  (reconWalk blocks (P.window + P.lag) id).map List.reverse

/-- The `!p.requestIds.has(id)` guarded accumulation of integration step 6:
returns the updated pool set and the genuinely new requests, in order. -/
def accumRequests (initial : List String) (rids : List String) :
    List String × List String :=
  rids.foldl
    (fun acc id => if id ∈ acc.1 then acc else (acc.1 ++ [id], acc.2 ++ [id]))
    (initial, [])

/-- `broadcastBlock(newIds, eventQueue, activeEvent)`: height-sort the ids,
push one `RECV_OTHER` per other pool (each with its own `owdP2P()` draw
`dBcast`), and set `broadcast = true` on every broadcast block.  `none`
models the TypeError when an id is missing from the table. -/
def broadcastBlock (pools : List String) (blocks : Blocks) (e : Event)
    (ids : List String) (dBcast : String → ℚ) :
    Option (Blocks × List Event) :=
  if ids.all (fun id => (blocks.get id).isSome) then
    let key : String → Int := fun id => ((blocks.get id).map (·.height)).getD 0
    let sorted := ids.mergeSort (fun a b => key a ≤ key b)
    let evs := (pools.filter (fun q => q ≠ e.poolId)).map
      (fun q => (⟨e.simClock + dBcast q, q, "RECV_OTHER", none, some sorted⟩ : Event))
    let blocks' := sorted.foldl
      (fun bl id =>
        match bl.get id with
        | none => bl
        | some b => bl.set id { b with broadcast := some true })
      blocks
    some (blocks', evs)
  else none

/-- Integration step 2 (src/main.js:1295-1309): on a truthy returned
timestamp, write it into the new tip's block, extend the parent's difficulty
window (drop-head + append), and compute the block's next difficulty. -/
def integrateTimestamp (P : DiffParams) (blocks : Blocks)
    (dWins : SMap (List DiffEntry)) (e : Event) (results : Decision) :
    Option (Blocks × SMap (List DiffEntry)) :=
  if jsTruthyInt results.timestamp then
    match results.timestamp, results.chaintip, e.chaintip with
    | some t, some newTip, some oldTip =>
      match blocks.get newTip with
      | none => none
      | some bNew =>
        let bNewT : Block := { bNew with timestamp := some t }
        let blocks1 := blocks.set newTip bNewT
        let win? : Option (List DiffEntry) :=
          match dWins.get oldTip with
          | some w => some w
          | none => reconstructDiffWindow P blocks1 oldTip
        match win? with
        | none => none
        | some win =>
          let dwNew := win.drop 1 ++ [⟨t, bNew.cumDifficulty⟩]
          let dWins1 := dWins.set newTip dwNew
          match calculateNextDifficulty P dwNew with
          | none => none
          | some nd =>
            some (blocks1.set newTip { bNewT with nxtDifficulty := some nd }, dWins1)
    | _, _, _ => none
  else some (blocks, dWins)

/-- Integration step 3 (src/main.js:1311-1323): merge the returned scores
into the pool's, height-sorted, and maintain `unscored`. -/
def integrateScores (blocks2 : Blocks) (p1 : Pool) (results : Decision) :
    Option Pool :=
  match results.scores with
  | none => some p1
  | some sc =>
    if sc.all (fun q => (blocks2.get q.1).isSome) then
      let key : String × Score → Int :=
        fun q => ((blocks2.get q.1).map (·.height)).getD 0
      let sorted := sc.mergeSort (fun a b => key a ≤ key b)
      some { p1 with
        scores := sorted.foldl (fun m q => m.set q.1 q.2) p1.scores
        unscored := sorted.foldl
          (fun m q =>
            if q.2.cumDiffScore = none then m.set q.1 (key q) else m.erase q.1)
          p1.unscored }
    else none

/-- Integration step 5 (src/main.js:1327-1330): on a chaintip change, adopt
it and reschedule the pool's next `HASHER_FIND`. -/
def integrateChaintip (blocks2 : Blocks) (p2 : Pool) (e : Event)
    (results : Decision) (dP2H dBlock : ℚ) : Option (Pool × List Event) :=
  if results.chaintip = some p2.chaintip then some (p2, [])
  else
    match results.chaintip with
    | none => none
    | some c =>
      let p3 : Pool := { p2 with chaintip := c }
      match simulateBlockTime blocks2 p3 e.simClock dP2H dBlock with
      | none => none
      | some ev => some (p3, [ev])

/-- Integration step 6 (src/main.js:1332-1350): register genuinely new
requests and schedule one refetch `RECV_OTHER` with the full transmission
delay. -/
def integrateRequests (blocks2 : Blocks) (p3 : Pool) (e : Event)
    (results : Decision) (dReq dTrans : ℚ) : Option (Pool × List Event) :=
  match results.requestIds with
  | none => some (p3, [])
  | some rids =>
    let acc := accumRequests p3.requestIds rids
    if acc.2.isEmpty then some ({ p3 with requestIds := acc.1 }, [])
    else
      if acc.2.all (fun id => (blocks2.get id).isSome) then
        let key : String → Int :=
          fun id => ((blocks2.get id).map (·.height)).getD 0
        some ({ p3 with requestIds := acc.1 },
          [⟨e.simClock + 2 * dReq + dTrans * (acc.2.length : ℚ), p3.id,
            "RECV_OTHER", none, some (acc.2.mergeSort (fun a b => key a ≤ key b))⟩])
      else none

/-- `integrateStrategyResults` (src/main.js:1284-1353).  The stochastic
draws are explicit: `dP2H`/`dBlock` for the `simulateBlockTime` rescheduling
on a chaintip change, `dReq` the single `owdP2P()` draw doubled for a
refetch, `dTrans` the `transTime()` draw, and `dBcast` one `owdP2P()` draw
per broadcast recipient.  `pools` is the round's pool-id list.  The result
is `(pool', blocks', diffWindows', pushed events)`; `none` models a thrown
TypeError.  (`results.altTip` is never set by the unified agent, so
integration step 4 never fires and `altTip` is returned unchanged.) -/
def integrateStrategyResults (P : DiffParams) (pools : List String)
    (blocks : Blocks) (dWins : SMap (List DiffEntry)) (p : Pool) (e : Event)
    (results : Decision) (dP2H dBlock dReq dTrans : ℚ) (dBcast : String → ℚ) :
    Option (Pool × Blocks × SMap (List DiffEntry) × List Event) :=
  -- step 1: remove the received ids from the pool's request set
  let p1 : Pool :=
    { p with requestIds := p.requestIds.filter (fun id => ¬ (e.newIds.getD []).contains id) }
  match integrateTimestamp P blocks dWins e results with
  | none => none
  | some (blocks2, dWins2) =>
    match integrateScores blocks2 p1 results with
    | none => none
    | some p2 =>
      match integrateChaintip blocks2 p2 e results dP2H dBlock with
      | none => none
      | some (p3, evs1) =>
        match integrateRequests blocks2 p3 e results dReq dTrans with
        | none => none
        | some (p4, evs2) =>
          match results.broadcastIds with
          | some l =>
            if l.length > 0 then
              match broadcastBlock pools blocks2 e l dBcast with
              | none => none
              | some (blocks3, evs3) => some (p4, blocks3, dWins2, evs1 ++ evs2 ++ evs3)
            else some (p4, blocks2, dWins2, evs1 ++ evs2)
          | none => some (p4, blocks2, dWins2, evs1 ++ evs2)

/-- An abstract run of the engine's event loop over its min-queue: each step
pops an event that is simClock-minimal in the queue (the comparator's first
key is the simClock) and pushes only events no earlier than the popped one
(what the handlers guarantee — the other conjuncts of C3's theorem); the
trace records the popped simClocks. -/
inductive PopRun : List Event → List ℚ → Prop
  | nil (q : List Event) : PopRun q []
  | step (q : List Event) (e : Event) (pushes : List Event) (rest : List ℚ) :
      e ∈ q →
      (∀ f ∈ q, e.simClock ≤ f.simClock) →
      (∀ f ∈ pushes, e.simClock ≤ f.simClock) →
      PopRun (q.erase e ++ pushes) rest →
      PopRun q (e.simClock :: rest)


/-- The frame invariant of the honest head: the pool's live score object for
`tip` is untouched (`pScores`), `tip` was never aliased into the agent's
local `scores`, and the local map's keys are unique. -/
def HeadInv (tip : String) (tipSc : Score) (st : AgentSt) : Prop :=
  st.pScores.get tip = some tipSc ∧ tip ∉ st.aliased ∧ st.loc.keys.Nodup

/-- `m[t].cumDiffScore` is the value `c`. -/
def CumAt (m : SMap Score) (t : String) (c : Option Int) : Prop :=
  ∃ sc, m.get t = some sc ∧ sc.cumDiffScore = c


-- =============================================================================
-- THEOREMS
-- =============================================================================

lemma trim_eq (win : List DiffEntry) (W L : Nat) (hL : 1 ≤ L) (hW : 1 ≤ W) :
    sliceLastWindow (sliceDropLast win L) W
      = (takeLast win (W + L)).take ((takeLast win (W + L)).length - L) := by
  have hL0 : L ≠ 0 := by omega
  have hW0 : W ≠ 0 := by omega
  simp only [sliceDropLast, sliceLastWindow, takeLast, if_neg hL0, if_neg hW0]
  rw [List.length_take, List.length_drop]
  rw [List.drop_take]
  have h1 : (win.length - L) ⊓ win.length - W = win.length - (W + L) := by omega
  rw [h1]
  congr 1
  omega

lemma jsListGet_eq_getD (l : List Int) (i : Int) (h0 : 0 ≤ i) (hlt : i.toNat < l.length) :
    jsListGet l i = some (l.getD i.toNat 0) := by
  rw [jsListGet, if_pos h0, List.getD_eq_get?, List.get?_eq_get hlt]
  rfl

lemma tdiv_ceil_clamp (x t : Int) (ht : 1 ≤ t) :
    (if Int.tdiv (x + t - 1) t ≤ 0 then (1 : Int) else Int.tdiv (x + t - 1) t)
      = max 1 ⌈((x : ℚ) / (t : ℚ))⌉ := by
  have htQ : (0 : ℚ) < (t : ℚ) := by exact_mod_cast (by omega : (0:Int) < t)
  by_cases hx : x ≤ 0
  · have hlhs : Int.tdiv (x + t - 1) t ≤ 0 := by
      by_cases hm : 0 ≤ x + t - 1
      · rw [Int.tdiv_eq_zero_of_lt hm (by omega)]
      · have h2 : 0 ≤ Int.tdiv (-(x + t - 1)) t := Int.tdiv_nonneg (by omega) (by omega)
        rw [show x + t - 1 = -(-(x + t - 1)) by ring, Int.neg_tdiv]
        omega
    have hceil : ⌈((x : ℚ) / (t : ℚ))⌉ ≤ 0 := by
      apply Int.ceil_le.mpr
      push_cast
      apply div_nonpos_of_nonpos_of_nonneg
      · exact_mod_cast hx
      · positivity
    rw [if_pos hlhs]
    omega
  · push_neg at hx
    have hm : 0 ≤ x + t - 1 := by omega
    rw [Int.tdiv_eq_ediv hm (by omega)]
    have hmod := Int.ediv_add_emod (x + t - 1) t
    have hmn : 0 ≤ (x + t - 1) % t := Int.emod_nonneg _ (by omega)
    have hmu : (x + t - 1) % t < t := Int.emod_lt_of_pos _ (by omega)
    set q : Int := (x + t - 1) / t with hq
    have hcomm : q * t = t * q := mul_comm q t
    have hxle : x ≤ q * t := by rw [hcomm]; omega
    have hxgt : (q - 1) * t < x := by
      have hexp : (q - 1) * t = t * q - t := by ring
      rw [hexp]
      omega
    have hq1 : 1 ≤ q := by
      rw [hq]
      rw [Int.le_ediv_iff_mul_le (by omega : (0:Int) < t)]
      omega
    have hceil : ⌈((x : ℚ) / (t : ℚ))⌉ = q := by
      rw [Int.ceil_eq_iff]
      constructor
      · rw [lt_div_iff₀ htQ]
        calc ((q : ℚ) - 1) * t = (((q - 1) * t : Int) : ℚ) := by push_cast; ring
        _ < ((x : Int) : ℚ) := by exact_mod_cast hxgt
      · rw [div_le_iff₀ htQ]
        calc ((x : Int) : ℚ) ≤ ((q * t : Int) : ℚ) := by exact_mod_cast hxle
        _ = (q : ℚ) * t := by push_cast; ring
    rw [hceil, if_neg (by omega), max_eq_right hq1]

lemma getD_map_get (es : List DiffEntry) (f : DiffEntry → Int) (n : Nat) (h : n < es.length) :
    (es.map f).getD n 0 = f (es.get ⟨n, h⟩) := by
  rw [List.getD_eq_get?, List.get?_eq_get (by simpa using h)]
  simp

lemma sortByTimestamp_pairwise (l : List DiffEntry) :
    (sortByTimestamp l).Pairwise (fun a b => a.timestamp ≤ b.timestamp) := by
  have h := @List.sorted_mergeSort DiffEntry
    (fun a b : DiffEntry => decide (a.timestamp ≤ b.timestamp))
    (fun a b c hab hbc => by
      simp only [decide_eq_true_eq] at *
      omega)
    (fun a b => by
      simp only [Bool.or_eq_true, decide_eq_true_eq]
      omega) l
  exact h.imp (fun hab => by simpa using hab)

lemma ifzero_eq_max (a : Int) (h : 0 ≤ a) :
    (if a = 0 then (1 : Int) else a) = max 1 a := by
  by_cases h0 : a = 0
  · simp [h0]
  · rw [if_neg h0, max_eq_right (by omega)]

lemma C1_core (target : Int) (es : List DiffEntry) (cb ce : Int)
    (hpw : es.Pairwise (fun a b => a.timestamp ≤ b.timestamp))
    (h0 : 0 ≤ cb) (h1 : cb < ce - 1) (h2 : ce ≤ (es.length : Int)) :
    ((jsListGet (es.map (·.timestamp)) (ce - 1)).bind fun tsHi =>
     (jsListGet (es.map (·.timestamp)) cb).bind fun tsLo =>
     (jsListGet (es.map (·.cumDifficulty)) (ce - 1)).bind fun cdHi =>
     (jsListGet (es.map (·.cumDifficulty)) cb).map fun cdLo =>
       let timeSpan : Int := if tsHi - tsLo = 0 then 1 else tsHi - tsLo
       let totalWork : Int := cdHi - cdLo
       let nd : Int := Int.tdiv (totalWork * target + timeSpan - 1) timeSpan
       if nd ≤ 0 then 1 else nd)
    = some (max 1 ⌈((((es.map (·.cumDifficulty)).getD (ce - 1).toNat 0
          - (es.map (·.cumDifficulty)).getD cb.toNat 0) * target : Int) : ℚ)
        / ((max 1 ((es.map (·.timestamp)).getD (ce - 1).toNat 0
          - (es.map (·.timestamp)).getD cb.toNat 0) : Int) : ℚ)⌉) := by
  have hceN : (ce - 1).toNat < es.length := by omega
  have hcbN : cb.toNat < es.length := by omega
  have hij : (⟨cb.toNat, hcbN⟩ : Fin es.length) < ⟨(ce - 1).toNat, hceN⟩ := by
    simp only [Fin.mk_lt_mk]
    omega
  have hts := (List.pairwise_iff_get.mp hpw) _ _ hij
  rw [jsListGet_eq_getD _ _ (by omega) (by simpa using hceN),
      jsListGet_eq_getD _ _ h0 (by simpa using hcbN),
      jsListGet_eq_getD _ _ (by omega) (by simpa using hceN),
      jsListGet_eq_getD _ _ h0 (by simpa using hcbN)]
  simp only [Option.some_bind, Option.map_some, Option.map_some']
  congr 1
  rw [getD_map_get es _ _ hceN, getD_map_get es _ _ hcbN,
      getD_map_get es _ _ hceN, getD_map_get es _ _ hcbN]
  have hd : 0 ≤ (es.get ⟨(ce - 1).toNat, hceN⟩).timestamp
      - (es.get ⟨cb.toNat, hcbN⟩).timestamp := by omega
  rw [ifzero_eq_max _ hd]
  exact tdiv_ceil_clamp _ _ (le_max_left 1 _)

theorem C1_calc (P : DiffParams) (win : List DiffEntry)
    (hL : 1 ≤ P.lag) (hW : 2 * P.cut + 2 ≤ P.window) :
    calculateNextDifficulty P win = some (specNextDifficulty P win) := by
  have hW1 : 1 ≤ P.window := by omega
  simp only [calculateNextDifficulty, specNextDifficulty]
  rw [trim_eq win P.window P.lag hL hW1]
  set es := sortByTimestamp ((takeLast win (P.window + P.lag)).take
      ((takeLast win (P.window + P.lag)).length - P.lag)) with hes
  by_cases hlen : ((es.length : Int)) ≤ 1
  · rw [if_pos hlen, if_pos hlen]
  · rw [if_neg hlen, if_neg hlen]
    have hlen2 : 2 ≤ es.length := by
      by_contra hcon
      apply hlen
      omega
    by_cases hcase : ((es.length : Int)) ≤ (P.window : Int) - 2 * (P.cut : Int)
    · simp only [if_pos hcase]
      exact C1_core P.target es 0 ((es.length : Int)) (sortByTimestamp_pairwise _)
        le_rfl (by omega) le_rfl
    · simp only [if_neg hcase]
      have hfd : ((es.length : Int) - ((P.window : Int) - 2 * (P.cut : Int)) + 1).fdiv 2
          = ((es.length : Int) - ((P.window : Int) - 2 * (P.cut : Int)) + 1) / 2 :=
        Int.fdiv_eq_ediv _ (by omega)
      have hwcut : (2 : Int) ≤ (P.window : Int) - 2 * (P.cut : Int) := by
        omega
      refine C1_core P.target es _ _ (sortByTimestamp_pairwise _) ?_ ?_ ?_
      · rw [hfd]
        omega
      · rw [hfd]
        omega
      · rw [hfd]
        omega


/-- C1: `calculateNextDifficulty(t)` implements the cut-trimmed-window
algorithm exactly: for every difficulty window, it takes the last `W + L`
entries, drops the last `L`, sorts the remaining at most `W` entries by
timestamp ascending; if at most 1 entry remains it returns 1; otherwise, with
the stated cut indices, it returns
`ceil(totalWork · diffTargetSeconds / max(1, timeSpan))` clamped to at least
1, in exact integer arithmetic.  The hypotheses are the configuration
validity conditions (`L ≥ 1`, Monero's own constraint `2·Cut ≤ W − 2`) under
which the ported algorithm is the spec algorithm. -/
theorem C1_difficulty_algorithm (P : DiffParams) (win : List DiffEntry)
    (hL : 1 ≤ P.lag) (hW : 2 * P.cut + 2 ≤ P.window) :
    calculateNextDifficulty P win = some (specNextDifficulty P win) :=
  C1_calc P win hL hW

/-- Witness for C1 at the concrete parameters `target 120, W 5, L 1, Cut 1`
and a concrete 7-entry window. -/
theorem C1_difficulty_algorithm_witness :
    1 ≤ (1 : Nat) ∧ 2 * 1 + 2 ≤ (5 : Nat) ∧
    calculateNextDifficulty ⟨120, 5, 1, 1⟩
        [⟨100, 10⟩, ⟨110, 25⟩, ⟨105, 37⟩, ⟨130, 50⟩, ⟨125, 66⟩, ⟨140, 80⟩, ⟨150, 95⟩]
      = some (specNextDifficulty ⟨120, 5, 1, 1⟩
        [⟨100, 10⟩, ⟨110, 25⟩, ⟨105, 37⟩, ⟨130, 50⟩, ⟨125, 66⟩, ⟨140, 80⟩, ⟨150, 95⟩]) :=
  ⟨by decide, by decide, C1_difficulty_algorithm ⟨120, 5, 1, 1⟩ _ (by decide) (by decide)⟩


lemma listCmp_neg_iff : ∀ (a b : List Nat), listCmp a b < 0 ↔ List.Lex (· < ·) a b
  | [], [] => by
      simp only [listCmp]
      constructor
      · omega
      · intro h; cases h
  | [], y :: ys => by
      simp only [listCmp]
      constructor
      · intro _; exact List.Lex.nil
      · intro _; omega
  | x :: xs, [] => by
      simp only [listCmp]
      constructor
      · omega
      · intro h; cases h
  | x :: xs, y :: ys => by
      simp only [listCmp]
      by_cases hxy : x < y
      · rw [if_pos hxy]
        constructor
        · intro _; exact List.Lex.rel hxy
        · intro _; omega
      · rw [if_neg hxy]
        by_cases hyx : y < x
        · rw [if_pos hyx]
          constructor
          · omega
          · intro h
            cases h with
            | rel h2 => omega
            | cons h2 => omega
        · rw [if_neg hyx]
          have hxe : x = y := by omega
          subst hxe
          rw [listCmp_neg_iff xs ys]
          constructor
          · intro h; exact List.Lex.cons h
          · intro h
            cases h with
            | rel h2 => omega
            | cons h2 => exact h2

lemma listCmp_eq_zero_iff : ∀ (a b : List Nat), listCmp a b = 0 ↔ a = b
  | [], [] => by simp [listCmp]
  | [], y :: ys => by simp [listCmp]
  | x :: xs, [] => by simp [listCmp]
  | x :: xs, y :: ys => by
      simp only [listCmp]
      by_cases hxy : x < y
      · rw [if_pos hxy]
        constructor
        · omega
        · intro h
          injection h with h1 h2
          omega
      · rw [if_neg hxy]
        by_cases hyx : y < x
        · rw [if_pos hyx]
          constructor
          · omega
          · intro h
            injection h with h1 h2
            omega
        · rw [if_neg hyx]
          have hxe : x = y := by omega
          subst hxe
          rw [listCmp_eq_zero_iff xs ys]
          constructor
          · intro h; rw [h]
          · intro h
            exact (List.cons.inj h).2

lemma lcCmp_self (s : String) : lcCmp s s = 0 := by
  simp only [lcCmp]
  rw [if_neg (not_not_intro ((listCmp_eq_zero_iff _ _).mpr rfl))]
  exact (listCmp_eq_zero_iff _ _).mpr rfl

lemma lcCmp_neg_iff (s t : String) : lcCmp s t < 0 ↔ CollLt s t := by
  simp only [lcCmp, CollLt]
  by_cases hp : listCmp (s.data.map collPrimary) (t.data.map collPrimary) = 0
  · rw [if_neg (not_not_intro hp)]
    have hpe := (listCmp_eq_zero_iff _ _).mp hp
    rw [listCmp_neg_iff]
    constructor
    · intro h
      exact Or.inr ⟨hpe, h⟩
    · rintro (h | ⟨_, h⟩)
      · rw [hpe] at h
        have h2 := (listCmp_neg_iff _ _).mpr h
        rw [(listCmp_eq_zero_iff _ _).mpr rfl] at h2
        omega
      · exact h
  · rw [if_pos hp]
    rw [listCmp_neg_iff]
    constructor
    · intro h
      exact Or.inl h
    · rintro (h | ⟨hpe, _⟩)
      · exact h
      · exact absurd ((listCmp_eq_zero_iff _ _).mpr hpe) hp

lemma lcCmp_eq_zero_iff (s t : String) : lcCmp s t = 0 ↔
    (s.data.map collPrimary = t.data.map collPrimary ∧
     s.data.map collTertiary = t.data.map collTertiary) := by
  simp only [lcCmp]
  by_cases hp : listCmp (s.data.map collPrimary) (t.data.map collPrimary) = 0
  · rw [if_neg (not_not_intro hp)]
    have hpe := (listCmp_eq_zero_iff _ _).mp hp
    rw [listCmp_eq_zero_iff]
    constructor
    · intro h
      exact ⟨hpe, h⟩
    · intro h
      exact h.2
  · rw [if_pos hp]
    constructor
    · intro h
      exact absurd h hp
    · intro h
      exact absurd ((listCmp_eq_zero_iff _ _).mpr h.1) hp

set_option maxRecDepth 8000 in
lemma idChar_weight_inj :
    ∀ c ∈ idChars, ∀ d ∈ idChars,
      collPrimary c = collPrimary d → collTertiary c = collTertiary d →
      c = d := by
  with_unfolding_all decide

lemma weight_inj_list :
    ∀ (l1 l2 : List Char),
      (∀ c ∈ l1, IdChar c) → (∀ c ∈ l2, IdChar c) →
      l1.map collPrimary = l2.map collPrimary →
      l1.map collTertiary = l2.map collTertiary →
      l1 = l2
  | [], [] => by intro _ _ _ _; rfl
  | [], c :: l2 => by
      intro _ _ h _
      simp at h
  | c :: l1, [] => by
      intro _ _ h _
      simp at h
  | c :: l1, d :: l2 => by
      intro h1 h2 hp ht
      rw [List.map_cons, List.map_cons] at hp ht
      injection hp with hp1 hp2
      injection ht with ht1 ht2
      have hcd : c = d := idChar_weight_inj c (h1 c (List.mem_cons_self c l1))
        d (h2 d (List.mem_cons_self d l2)) hp1 ht1
      rw [hcd, weight_inj_list l1 l2 (fun x hx => h1 x (List.mem_cons_of_mem c hx))
        (fun x hx => h2 x (List.mem_cons_of_mem d hx)) hp2 ht2]

lemma lcCmp_eq_zero_iff_of_id (s t : String) (hs : IdString s) (ht : IdString t) :
    lcCmp s t = 0 ↔ s = t := by
  rw [lcCmp_eq_zero_iff]
  constructor
  · intro h
    have hd := weight_inj_list s.data t.data hs ht h.1 h.2
    cases s
    cases t
    exact congrArg String.mk hd
  · intro h
    rw [h]
    exact ⟨rfl, rfl⟩

lemma lcCmp_castQ_neg_iff (s t : String) : ((lcCmp s t : Int) : ℚ) < 0 ↔ CollLt s t := by
  rw [show ((0:ℚ) = ((0:Int):ℚ)) by norm_num, Int.cast_lt]
  exact lcCmp_neg_iff s t

lemma lcCmp_castQ_eq_zero_iff_of_id (s t : String) (hs : IdString s)
    (ht : IdString t) : ((lcCmp s t : Int) : ℚ) = 0 ↔ s = t := by
  rw [show ((0:ℚ) = ((0:Int):ℚ)) by norm_num, Int.cast_inj]
  exact lcCmp_eq_zero_iff_of_id s t hs ht

lemma CollLt_ne {s t : String} (h : CollLt s t) : s ≠ t := by
  intro he
  subst he
  have h2 := (lcCmp_neg_iff s s).mpr h
  rw [lcCmp_self] at h2
  omega

lemma getLast?_mem {α : Type} : ∀ (l : List α) (x : α), l.getLast? = some x → x ∈ l
  | [], x => by intro h; cases h
  | [a], x => by
      intro h
      rw [List.getLast?_singleton] at h
      rw [← Option.some.inj h]
      exact List.mem_singleton_self a
  | a :: b :: l, x => by
      intro h
      rw [List.getLast?_cons_cons] at h
      exact List.mem_cons_of_mem a (getLast?_mem (b :: l) x h)

lemma lastNewId_id (e : Event) (hie : IdEvent e) :
    ∀ s, lastNewId e = some s → IdString s := by
  intro s h
  rw [lastNewId] at h
  rcases hn : e.newIds with _ | l
  · simp only [hn] at h
    rw [← Option.some.inj h]
    with_unfolding_all decide
  · simp only [hn] at h
    exact hie.2.2.2 l hn s (getLast?_mem l s h)

lemma lastNewId_isSome (e : Event) (he : WFEvent e) : ∃ s, lastNewId e = some s := by
  rw [lastNewId]
  match hn : e.newIds with
  | none => exact ⟨"0", rfl⟩
  | some l =>
    match l with
    | [] => exact absurd hn he.2
    | x :: xs => simp [List.getLast?]

/-- C2 (corrected): the event queue comparator is a 5-key total order, but
with the three string keys compared by `localeCompare` — the CLDR root
collation — not byte order as the spec asserts: the comparator yields a
defined sign for any two well-formed events over the identifier alphabet;
the sign is negative (the event is popped first) exactly when the 5-key
tuple `(simClock, poolId, inverted action, chaintip, last newIds entry)` is
lexicographically smaller with strings ordered by the collation (`CollLt`);
it yields zero exactly when all five keys coincide; and at equal simClock
and poolId a `RECV_OWN` event still precedes a `RECV_OTHER` event.  The
spec's byte-lex reading is refuted by `C2_bytelex_counterexample`. -/
theorem C2_comparator (a b : Event) (ha : WFEvent a) (hb : WFEvent b)
    (hia : IdEvent a) (hib : IdEvent b) :
    (∃ v, compareEvents a b = some v ∧ (v < 0 ↔ specLessColl a b) ∧
      (v = 0 ↔ a.simClock = b.simClock ∧ a.poolId = b.poolId ∧ a.action = b.action ∧
        a.chaintip = b.chaintip ∧ lastNewId a = lastNewId b)) ∧
    (a.simClock = b.simClock → a.poolId = b.poolId → a.action = "RECV_OWN" →
      b.action = "RECV_OTHER" → specLessColl a b) := by
  have hOrd : CollLt "RECV_OTHER" "RECV_OWN" :=
    (lcCmp_neg_iff _ _).mp (by with_unfolding_all decide)
  constructor
  · rw [compareEvents]
    by_cases h1 : a.simClock ≠ b.simClock
    · rw [if_pos h1]
      refine ⟨_, rfl, ?_, ?_⟩
      · rw [sub_neg, specLessColl]
        constructor
        · exact Or.inl
        · rintro (h | ⟨he, _⟩)
          · exact h
          · exact absurd he h1
      · rw [sub_eq_zero]
        constructor
        · intro h
          exact absurd h h1
        · rintro ⟨h, _⟩
          exact absurd h h1
    · push_neg at h1
      rw [if_neg (by simpa using h1)]
      by_cases h2 : a.poolId ≠ b.poolId
      · rw [if_pos h2]
        refine ⟨_, rfl, ?_, ?_⟩
        · rw [lcCmp_castQ_neg_iff, specLessColl]
          constructor
          · intro h
            exact Or.inr ⟨h1, Or.inl h⟩
          · rintro (h | ⟨_, (h | ⟨he, _⟩)⟩)
            · exact absurd h1 (ne_of_lt h)
            · exact h
            · exact absurd he h2
        · rw [lcCmp_castQ_eq_zero_iff_of_id _ _ hia.1 hib.1]
          constructor
          · intro h
            exact absurd h h2
          · rintro ⟨_, h, _⟩
            exact absurd h h2
      · push_neg at h2
        rw [if_neg (by simpa using h2)]
        by_cases h3 : a.action ≠ b.action
        · rw [if_pos h3]
          refine ⟨_, rfl, ?_, ?_⟩
          · rw [lcCmp_castQ_neg_iff, specLessColl]
            constructor
            · intro h
              exact Or.inr ⟨h1, Or.inr ⟨h2, Or.inl h⟩⟩
            · rintro (h | ⟨_, (h | ⟨_, (h | ⟨he, _⟩)⟩)⟩)
              · exact absurd h1 (ne_of_lt h)
              · exact absurd h2 (CollLt_ne h)
              · exact h
              · exact absurd he h3
          · rw [lcCmp_castQ_eq_zero_iff_of_id _ _ hib.2.1 hia.2.1]
            constructor
            · intro h
              exact absurd h.symm h3
            · rintro ⟨_, _, h, _⟩
              exact absurd h h3
        · push_neg at h3
          rw [if_neg (by simpa using h3)]
          by_cases h4 : a.chaintip ≠ b.chaintip
          · rw [if_pos h4]
            match hac : a.chaintip, hbc : b.chaintip with
            | none, none => exact absurd (hac.trans hbc.symm) h4
            | none, some y =>
              exact absurd (hac.trans (hb.1.mpr (h3.symm.trans (ha.1.mp hac))).symm) h4
            | some x, none =>
              exact absurd ((ha.1.mpr (h3.trans (hb.1.mp hbc))).trans hbc.symm) h4
            | some x, some y =>
              have hxy : x ≠ y := by
                intro he
                exact h4 (by rw [hac, hbc, he])
              refine ⟨_, rfl, ?_, ?_⟩
              · rw [lcCmp_castQ_neg_iff, specLessColl]
                constructor
                · intro h
                  refine Or.inr ⟨h1, Or.inr ⟨h2, Or.inr ⟨h3, Or.inl ?_⟩⟩⟩
                  rw [hac, hbc]
                  simpa using h
                · rintro (h | ⟨_, (h | ⟨_, (h | ⟨_, (h | ⟨he, _⟩)⟩)⟩)⟩)
                  · exact absurd h1 (ne_of_lt h)
                  · exact absurd h2 (CollLt_ne h)
                  · exact absurd h3.symm (CollLt_ne h)
                  · rw [hac, hbc] at h
                    simpa using h
                  · rw [hac, hbc] at he
                    simp only [Option.getD_some] at he
                    exact absurd he hxy
              · rw [lcCmp_castQ_eq_zero_iff_of_id _ _ (hia.2.2.1 x hac) (hib.2.2.1 y hbc)]
                constructor
                · intro h
                  exact absurd h hxy
                · rintro ⟨_, _, _, h, _⟩
                  exact absurd (Option.some_injective _ h) hxy
          · push_neg at h4
            rw [if_neg (by simpa using h4)]
            obtain ⟨sa, hsa⟩ := lastNewId_isSome a ha
            obtain ⟨sb, hsb⟩ := lastNewId_isSome b hb
            by_cases h5 : lastNewId a ≠ lastNewId b
            · rw [if_pos h5, hsa, hsb]
              have hxy : sa ≠ sb := by
                intro he
                exact h5 (by rw [hsa, hsb, he])
              refine ⟨_, rfl, ?_, ?_⟩
              · rw [lcCmp_castQ_neg_iff, specLessColl]
                constructor
                · intro h
                  refine Or.inr ⟨h1, Or.inr ⟨h2, Or.inr ⟨h3, Or.inr ⟨by rw [h4], ?_⟩⟩⟩⟩
                  rw [hsa, hsb]
                  simpa using h
                · rintro (h | ⟨_, (h | ⟨_, (h | ⟨_, (h | ⟨_, h⟩)⟩)⟩)⟩)
                  · exact absurd h1 (ne_of_lt h)
                  · exact absurd h2 (CollLt_ne h)
                  · exact absurd h3.symm (CollLt_ne h)
                  · rw [h4] at h
                    exact absurd rfl (CollLt_ne h)
                  · rw [hsa, hsb] at h
                    simpa using h
              · rw [lcCmp_castQ_eq_zero_iff_of_id _ _ (lastNewId_id a hia sa hsa)
                  (lastNewId_id b hib sb hsb)]
                constructor
                · intro h
                  exact absurd h hxy
                · rintro ⟨_, _, _, _, h⟩
                  exact absurd (Option.some_injective _ h) hxy
            · push_neg at h5
              rw [if_neg (by simpa using h5)]
              refine ⟨0, rfl, ?_, ?_⟩
              · constructor
                · intro h
                  exact absurd rfl (ne_of_lt h)
                · rw [specLessColl]
                  rintro (h | ⟨_, (h | ⟨_, (h | ⟨_, (h | ⟨_, h⟩)⟩)⟩)⟩)
                  · exact absurd h1 (ne_of_lt h)
                  · exact absurd h2 (CollLt_ne h)
                  · exact absurd h3.symm (CollLt_ne h)
                  · rw [h4] at h
                    exact absurd rfl (CollLt_ne h)
                  · rw [h5] at h
                    exact absurd rfl (CollLt_ne h)
              · simp [h1, h2, h3, h4, h5]
  · intro hc hp haw hbo
    rw [specLessColl]
    refine Or.inr ⟨hc, Or.inr ⟨hp, Or.inl ?_⟩⟩
    rw [haw, hbo]
    exact hOrd

/-- Witness for C2: a `RECV_OWN` and a `RECV_OTHER` event of the same pool at
the same simClock; the `RECV_OWN` event is ordered first. -/
theorem C2_comparator_witness :
    specLessColl ⟨1, "P0", "RECV_OWN", some "5_P0", none⟩
      ⟨1, "P0", "RECV_OTHER", none, some ["6_P1"]⟩ := by
  refine (C2_comparator ⟨1, "P0", "RECV_OWN", some "5_P0", none⟩
      ⟨1, "P0", "RECV_OTHER", none, some ["6_P1"]⟩
      ⟨by with_unfolding_all decide, by with_unfolding_all decide⟩
      ⟨by with_unfolding_all decide, by with_unfolding_all decide⟩
      ?_ ?_).2 rfl rfl rfl rfl
  · refine ⟨by with_unfolding_all decide, by with_unfolding_all decide, ?_, ?_⟩
    · intro t h
      rw [← Option.some.inj h]
      with_unfolding_all decide
    · intro l h
      cases h
  · refine ⟨by with_unfolding_all decide, by with_unfolding_all decide, ?_, ?_⟩
    · intro t h
      cases h
    · intro l h t ht
      rw [← Option.some.inj h] at ht
      simp only [List.mem_singleton] at ht
      rw [ht]
      with_unfolding_all decide

/-- Counterexample to the spec's byte-lex wording: two well-formed events of
the same pool, clock and action whose chaintips are `"5_P0"` and `"50_P0"`.
Under the collation the `'_'` (punctuation) sorts before the digit `'0'`, so
the comparator returns a negative sign and pops the `"5_P0"` event first —
while the byte order (`'0' < '_'`) puts the `"50_P0"` event first, the
opposite order. -/
theorem C2_bytelex_counterexample :
    WFEvent ⟨1, "P0", "RECV_OWN", some "5_P0", none⟩ ∧
    WFEvent ⟨1, "P0", "RECV_OWN", some "50_P0", none⟩ ∧
    (∃ v, compareEvents ⟨1, "P0", "RECV_OWN", some "5_P0", none⟩
        ⟨1, "P0", "RECV_OWN", some "50_P0", none⟩ = some v ∧ v < 0) ∧
    specLess ⟨1, "P0", "RECV_OWN", some "50_P0", none⟩
      ⟨1, "P0", "RECV_OWN", some "5_P0", none⟩ ∧
    ¬ specLess ⟨1, "P0", "RECV_OWN", some "5_P0", none⟩
      ⟨1, "P0", "RECV_OWN", some "50_P0", none⟩ := by
  refine ⟨⟨by with_unfolding_all decide, by with_unfolding_all decide⟩,
    ⟨by with_unfolding_all decide, by with_unfolding_all decide⟩,
    ⟨((-1 : Int) : ℚ), by with_unfolding_all decide, by norm_num⟩, ?_, ?_⟩
  · rw [specLess]
    refine Or.inr ⟨rfl, Or.inr ⟨rfl, Or.inr ⟨rfl, Or.inl ?_⟩⟩⟩
    with_unfolding_all decide
  · rw [specLess]
    rintro (h | ⟨_, (h | ⟨_, (h | ⟨_, (h | ⟨h6, h⟩)⟩)⟩)⟩)
    · exact absurd h (lt_irrefl _)
    · exact absurd h (by with_unfolding_all decide)
    · exact absurd h (by with_unfolding_all decide)
    · exact absurd h (by with_unfolding_all decide)
    · exact absurd h6 (by with_unfolding_all decide)


lemma SMap.get_set_self {α : Type} (m : SMap α) (k : String) (v : α) :
    (m.set k v).get k = some v := by
  induction m with
  | nil => simp [SMap.set, SMap.get, List.find?_cons]
  | cons p rest ih =>
    by_cases h : p.1 = k
    · simp [SMap.set, h, SMap.get, List.find?_cons]
    · simp only [SMap.set, if_neg h]
      rw [SMap.get] at ih ⊢
      rw [List.find?_cons_of_neg _ (by simpa using h)]
      exact ih

lemma SMap.get_set_ne {α : Type} (m : SMap α) (k k' : String) (v : α) (h : k' ≠ k) :
    (m.set k v).get k' = m.get k' := by
  induction m with
  | nil => simp [SMap.set, SMap.get, List.find?_cons, Ne.symm h]
  | cons p rest ih =>
    by_cases hp : p.1 = k
    · rw [SMap.set, if_pos hp, SMap.get, SMap.get,
        List.find?_cons_of_neg _ (by simpa using Ne.symm h),
        List.find?_cons_of_neg _ (by simp [hp]; exact Ne.symm h)]
    · rw [SMap.set, if_neg hp]
      by_cases hp' : p.1 = k'
      · rw [SMap.get, SMap.get, List.find?_cons_of_pos _ (by simpa using hp'),
          List.find?_cons_of_pos _ (by simpa using hp')]
      · rw [SMap.get, SMap.get, List.find?_cons_of_neg _ (by simpa using hp'),
          List.find?_cons_of_neg _ (by simpa using hp')]
        exact ih

/-- C4: `hasherFindsBlock` and `generateBlock` implement the staleness rule.
Under the state the engine maintains (the pool's chaintip present in the
block table and scored), a `HASHER_FIND` event is accepted iff its chaintip
is the pool's chaintip, or is its predecessor with
`e.simClock ≤ p.scores[p.chaintip].simClock + owdP2H()`; on accept exactly
one `RECV_OWN` event is pushed at `e.simClock + owdP2H()`; otherwise the
event is discarded silently (`discard`, not `crash`): nothing is pushed, and
`generateBlock` likewise returns the staleness early-return, creating no
block and leaving every state component unchanged. -/
theorem C4_staleness (blocks : Blocks) (p : Pool) (e : Event) (dCheck dSend : ℚ)
    (tip : Block) (sc : Score)
    (htip : blocks.get p.chaintip = some tip)
    (hsc : p.scores.get p.chaintip = some sc) :
    (hasherFindsBlock blocks p e dCheck dSend
        = .push { e with simClock := e.simClock + dSend, action := "RECV_OWN" }
      ↔ (e.chaintip = some p.chaintip ∨
         (e.chaintip = some tip.prevId ∧ e.simClock ≤ sc.simClock + dCheck))) ∧
    (¬ (e.chaintip = some p.chaintip ∨
         (e.chaintip = some tip.prevId ∧ e.simClock ≤ sc.simClock + dCheck)) →
      hasherFindsBlock blocks p e dCheck dSend = .discard) ∧
    (e.chaintip ≠ some p.chaintip → e.chaintip ≠ some tip.prevId →
      generateBlock blocks p e = .stale) := by
  refine ⟨?_, ?_, ?_⟩
  · rw [hasherFindsBlock]
    by_cases h1 : e.chaintip = some p.chaintip
    · simp [h1]
    · rw [if_neg h1]
      simp only [htip]
      by_cases h2 : e.chaintip = some tip.prevId
      · simp only [if_pos h2, hsc]
        by_cases h3 : e.simClock > sc.simClock + dCheck
        · simp only [if_pos h3]
          constructor
          · intro hcon
            exact absurd hcon (by simp)
          · rintro (hc | ⟨_, hc⟩)
            · exact absurd hc h1
            · exact absurd hc (not_le_of_gt h3)
        · simp only [if_neg h3]
          push_neg at h3
          simp [h1, h2, h3]
      · simp only [if_neg h2]
        constructor
        · intro hcon
          exact absurd hcon (by simp)
        · rintro (hc | ⟨hc, _⟩)
          · exact absurd hc h1
          · exact absurd hc h2
  · intro hnot
    push_neg at hnot
    rw [hasherFindsBlock, if_neg hnot.1]
    simp only [htip]
    by_cases h2 : e.chaintip = some tip.prevId
    · simp only [if_pos h2, hsc]
      rw [if_pos (hnot.2 h2)]
    · rw [if_neg h2]
  · intro h1 h2
    simp only [generateBlock, if_neg h1, htip, if_neg h2]

/-- C5: every block minted by `generateBlock` has `height = prev.height + 1`,
`difficulty = prev.nxtDifficulty`, `cumDifficulty = prev.cumDifficulty +
difficulty`, null `timestamp`, `nxtDifficulty` and `broadcast`, and the event
is updated to carry exactly the singleton `newIds = [newBlockId]`; hence
minting preserves the invariant `cumDifficulty(b) = difficulty(b) +
cumDifficulty(prev(b))` for every block other than the bootstrap root
(given a fresh id, a key-consistent table, and a present root). -/
theorem C5_generateBlock (blocks blocks' : Blocks) (p : Pool) (e e' : Event)
    (tid : String) (b : Block) (nd : Int) (rootId : String) (rb : Block)
    (hmint : generateBlock blocks p e = .minted blocks' e')
    (htid : e.chaintip = some tid)
    (hb : blocks.get tid = some b)
    (hnd : b.nxtDifficulty = some nd) :
    (blocks' = blocks.set (mkBlockId (b.height + 1) e.poolId)
        { simClock := e.simClock, height := b.height + 1, poolId := e.poolId,
          blockId := mkBlockId (b.height + 1) e.poolId, prevId := b.blockId,
          timestamp := none, difficulty := nd, cumDifficulty := nd + b.cumDifficulty,
          nxtDifficulty := none, broadcast := none }
      ∧ e' = { e with newIds := some [mkBlockId (b.height + 1) e.poolId] }) ∧
    (CumDiffInv blocks rootId → KeysMatch blocks →
      blocks.get (mkBlockId (b.height + 1) e.poolId) = none →
      blocks.get rootId = some rb →
      CumDiffInv blocks' rootId) := by
  have hmain : blocks' = blocks.set (mkBlockId (b.height + 1) e.poolId)
        { simClock := e.simClock, height := b.height + 1, poolId := e.poolId,
          blockId := mkBlockId (b.height + 1) e.poolId, prevId := b.blockId,
          timestamp := none, difficulty := nd, cumDifficulty := nd + b.cumDifficulty,
          nxtDifficulty := none, broadcast := none }
      ∧ e' = { e with newIds := some [mkBlockId (b.height + 1) e.poolId] } := by
    simp only [generateBlock] at hmint
    split at hmint
    · rw [htid] at hmint
      simp only [hb, hnd] at hmint
      injection hmint with h1 h2
      rw [← htid] at h2
      exact ⟨h1.symm, h2.symm⟩
    · split at hmint
      · simp at hmint
      · split at hmint
        · rename_i tip htip h2
          have hpid : tip.prevId = tid := by
            have := h2.symm.trans htid
            exact Option.some_injective _ this
          rw [hpid] at hmint
          simp only [hb, hnd] at hmint
          injection hmint with h1 h2
          exact ⟨h1.symm, h2.symm⟩
        · simp at hmint
  refine ⟨hmain, ?_⟩
  intro hinv hkeys hfresh hroot
  set newId := mkBlockId (b.height + 1) e.poolId with hnew
  have hneRoot : newId ≠ rootId := by
    intro hcon
    rw [hcon, hroot] at hfresh
    cases hfresh
  have hneTid : newId ≠ tid := by
    intro hcon
    rw [hcon, hb] at hfresh
    cases hfresh
  intro id blk hget hid
  rw [hmain.1] at hget
  by_cases hidn : id = newId
  · subst hidn
    rw [SMap.get_set_self] at hget
    injection hget with hblk
    refine ⟨b, ?_, ?_⟩
    · rw [hmain.1, ← hblk]
      have hbid : b.blockId = tid := hkeys tid b hb
      rw [SMap.get_set_ne _ _ _ _ (by simpa [hbid] using hneTid.symm)]
      rw [hbid, hb]
    · rw [← hblk]
  · rw [SMap.get_set_ne _ _ _ _ hidn] at hget
    obtain ⟨pb, hpb, hsum⟩ := hinv id blk hget hid
    refine ⟨pb, ?_, hsum⟩
    rw [hmain.1]
    have hne : blk.prevId ≠ newId := by
      intro hcon
      rw [hcon, hfresh] at hpb
      cases hpb
    rw [SMap.get_set_ne _ _ _ _ hne]
    exact hpb


/-- Witness for C4: a fresh-template `HASHER_FIND` event is accepted and the
`RECV_OWN` copy is pushed at `e.simClock + owdP2H()`.  Record fields are in
declaration order (`Block`: simClock, height, poolId, blockId, prevId,
timestamp, difficulty, cumDifficulty, nxtDifficulty, broadcast; `Pool`: id,
chaintip, honTip, altTip, ntpDrift, scores, requestIds, unscored, policy). -/
theorem C4_staleness_witness :
    hasherFindsBlock
        [("7_HH0", ⟨100, 7, "HH0", "7_HH0", "6_HH0", some 99, 5, 50, some 6, some true⟩)]
        ⟨"P0", "7_HH0", none, none, 0,
          [("7_HH0", ⟨100, 100, some 5, some 50, true, some "7_HH0"⟩)], [], [], ⟨true, 0, 0⟩⟩
        ⟨101, "P0", "HASHER_FIND", some "7_HH0", none⟩ 1 2
      = .push ⟨(101 : ℚ) + 2, "P0", "RECV_OWN", some "7_HH0", none⟩ :=
  (C4_staleness
      [("7_HH0", ⟨100, 7, "HH0", "7_HH0", "6_HH0", some 99, 5, 50, some 6, some true⟩)]
      ⟨"P0", "7_HH0", none, none, 0,
        [("7_HH0", ⟨100, 100, some 5, some 50, true, some "7_HH0"⟩)], [], [], ⟨true, 0, 0⟩⟩
      ⟨101, "P0", "HASHER_FIND", some "7_HH0", none⟩ 1 2
      ⟨100, 7, "HH0", "7_HH0", "6_HH0", some 99, 5, 50, some 6, some true⟩
      ⟨100, 100, some 5, some 50, true, some "7_HH0"⟩
      (by with_unfolding_all decide)
      (by with_unfolding_all decide)).1.mpr (Or.inl rfl)

/-- Witness for C5: minting on top of the bootstrap tip produces the stated
record and singleton `newIds` (fields in declaration order as above). -/
theorem C5_generateBlock_witness :
    mkBlockId (7 + 1) "P0" = "8_P0" ∧
    (SMap.set [("7_HH0", (⟨100, 7, "HH0", "7_HH0", "6_HH0", some 99, 5, 50, some 6, some true⟩ : Block))]
        "8_P0" ⟨101, 8, "P0", "8_P0", "7_HH0", none, 6, 56, none, none⟩
      = SMap.set [("7_HH0", (⟨100, 7, "HH0", "7_HH0", "6_HH0", some 99, 5, 50, some 6, some true⟩ : Block))]
        (mkBlockId (7 + 1) "P0")
        ⟨101, 7 + 1, "P0", mkBlockId (7 + 1) "P0", "7_HH0", none, 6, 6 + 50, none, none⟩) ∧
    ((⟨101, "P0", "RECV_OWN", some "7_HH0", some ["8_P0"]⟩ : Event)
      = ⟨101, "P0", "RECV_OWN", some "7_HH0", some [mkBlockId (7 + 1) "P0"]⟩) := by
  have h := (C5_generateBlock
      [("7_HH0", ⟨100, 7, "HH0", "7_HH0", "6_HH0", some 99, 5, 50, some 6, some true⟩)]
      (SMap.set [("7_HH0", (⟨100, 7, "HH0", "7_HH0", "6_HH0", some 99, 5, 50, some 6, some true⟩ : Block))]
        "8_P0" ⟨101, 8, "P0", "8_P0", "7_HH0", none, 6, 56, none, none⟩)
      ⟨"P0", "7_HH0", none, none, 0, [], [], [], ⟨true, 0, 0⟩⟩
      ⟨101, "P0", "RECV_OWN", some "7_HH0", none⟩
      ⟨101, "P0", "RECV_OWN", some "7_HH0", some ["8_P0"]⟩
      "7_HH0" ⟨100, 7, "HH0", "7_HH0", "6_HH0", some 99, 5, 50, some 6, some true⟩ 6
      "7_HH0" ⟨100, 7, "HH0", "7_HH0", "6_HH0", some 99, 5, 50, some 6, some true⟩
      (by with_unfolding_all decide) rfl (by with_unfolding_all decide) rfl).1
  exact ⟨by with_unfolding_all decide, h.1, h.2⟩


/-- C9: on a `RECV_OTHER` event whose `newIds` is the empty list, for every
pool, block table and fuel, the agent invocation is not a no-op: it throws
(`resolveBranch` computes `blocks[newIds[0]].height` and `newIds[0]` is
`undefined`), modelled by the `none` result. -/
theorem C9_empty_newIds_crashes (p : Pool) (blocks : Blocks) (fuel : Nat)
    (sc : ℚ) (pid : String) (ct : Option String) :
    invokePoolAgent ⟨sc, pid, "RECV_OTHER", ct, some []⟩ p blocks fuel = none := by
  rfl

/-- C6: the agent is not pure with respect to its arguments: a reorganising
`RECV_OTHER` invocation mutates a score object reachable from `pool.scores`
in place (`propagateHeadPathToScores` clears `isHeadPath` on the orphaned
old-chaintip score through the alias).  Before the call the pool's score for
its chaintip `"6_P0"` has `isHeadPath = true`; after the call the pool's
`scores["6_P0"]` — the same object — has `isHeadPath = false`. -/
theorem C6_agent_mutates_pool_state :
    SMap.get
        [("5_HH0", (⟨0, 0, some 10, some 100, true, some "5_HH0"⟩ : Score)),
         ("6_P0", ⟨1, 1, some 10, some 110, true, some "6_P0"⟩)] "6_P0"
      = some ⟨1, 1, some 10, some 110, true, some "6_P0"⟩ ∧
    (invokePoolAgent ⟨3, "P0", "RECV_OTHER", none, some ["6_P1", "7_P1"]⟩
        ⟨"P0", "6_P0", none, none, 0,
          [("5_HH0", ⟨0, 0, some 10, some 100, true, some "5_HH0"⟩),
           ("6_P0", ⟨1, 1, some 10, some 110, true, some "6_P0"⟩)],
          [], [], ⟨true, 0, 0⟩⟩
        [("5_HH0", ⟨0, 5, "HH0", "5_HH0", "4_HH0", some 50, 10, 100, some 10, some true⟩),
         ("6_P0", ⟨1, 6, "P0", "6_P0", "5_HH0", some 60, 10, 110, some 10, some true⟩),
         ("6_P1", ⟨1, 6, "P1", "6_P1", "5_HH0", some 61, 11, 111, some 11, some true⟩),
         ("7_P1", ⟨2, 7, "P1", "7_P1", "6_P1", some 72, 11, 122, some 11, some true⟩)]
        100).map (fun r => SMap.get r.2 "6_P0")
      = some (some ⟨1, 1, some 10, some 110, false, some "6_P0"⟩) := by
  constructor
  · with_unfolding_all decide
  · with_unfolding_all decide

/-- C8: in the selfish decision, with `honLength = 0` (and the `honAdded = 0`
that every such invocation passes — `honLength = 0` occurs only on the
`RECV_OWN` path, where `executeSelfishStrategy` hard-codes `honAdded = 0`;
on `RECV_OTHER` every fresh score is a strict descendant of the common
ancestor, so `honLength ≥ 1`), all three scalars are zero and the decision
changes no action: no abandon is taken (the selfish branch is nonempty) and
the broadcast list is empty. -/
theorem C8_selfish_honLength_zero (blocks : Blocks) (e : Event) (p : Pool)
    (st : AgentSt) (selfTip honTip ca : String)
    (maxTip : Option Int × Option String) (results : Decision) (fuel : Nat)
    (ba bh bs : Block)
    (hba : blocks.get ca = some ba) (hbh : blocks.get honTip = some bh)
    (hbs : blocks.get selfTip = some bs)
    (hlen : bh.height - ba.height = 0)
    (hself : bs.height - ba.height ≠ 0) :
    (bh.height - ba.height)
        * (min 0 p.policy.kThresh - ((bs.height - ba.height) - (bh.height - ba.height)))
      = 0 ∧
    (bh.height - ba.height)
        * (max 0 p.policy.kThresh - ((bs.height - ba.height) - (bh.height - ba.height))
           + (if (bs.height - ba.height) > 1
                 ∧ ((bs.height - ba.height) - (bh.height - ba.height)) = 1
                 ∧ e.action = "RECV_OWN" then 2 else 1))
      = 0 ∧
    min (p.policy.retortPolicy * 0) (0 + 1) = 0 ∧
    selfishCore blocks e p st selfTip honTip ca 0 maxTip results fuel
      = some { results with broadcastIds := some [] } := by
  refine ⟨by rw [hlen]; ring, by rw [hlen]; ring, by simp, ?_⟩
  rw [selfishCore, hba, hbh, hbs]
  simp only [hlen]
  rw [if_neg (by
    push_neg
    constructor
    · simp
    · exact hself)]
  rw [if_neg (by
    push_neg
    constructor
    · simp
    · simp)]
  simp [jsSliceTo]

/-- Witness for C8 at a concrete state: the stored honest tip equals the
common ancestor (`honLength = 0`), the private branch has one block. -/
theorem C8_selfish_honLength_zero_witness :
    selfishCore
        [("5_HH0", ⟨0, 5, "HH0", "5_HH0", "4_HH0", some 50, 10, 100, some 10, some true⟩),
         ("6_P0", ⟨1, 6, "P0", "6_P0", "5_HH0", some 60, 10, 110, some 10, none⟩)]
        ⟨3, "P0", "RECV_OWN", some "5_HH0", some ["6_P0"]⟩
        ⟨"P0", "6_P0", some "5_HH0", none, 0, [], [], [], ⟨false, 1, 1⟩⟩
        ⟨[], [], []⟩ "6_P0" "5_HH0" "5_HH0" 0 (some 0, none)
        ⟨some "6_P0", none, none, none, some [], none⟩ 10
      = some { (⟨some "6_P0", none, none, none, some [], none⟩ : Decision) with
                 broadcastIds := some [] } :=
  (C8_selfish_honLength_zero
      [("5_HH0", ⟨0, 5, "HH0", "5_HH0", "4_HH0", some 50, 10, 100, some 10, some true⟩),
       ("6_P0", ⟨1, 6, "P0", "6_P0", "5_HH0", some 60, 10, 110, some 10, none⟩)]
      ⟨3, "P0", "RECV_OWN", some "5_HH0", some ["6_P0"]⟩
      ⟨"P0", "6_P0", some "5_HH0", none, 0, [], [], [], ⟨false, 1, 1⟩⟩
      ⟨[], [], []⟩ "6_P0" "5_HH0" "5_HH0" (some 0, none)
      ⟨some "6_P0", none, none, none, some [], none⟩ 10
      ⟨0, 5, "HH0", "5_HH0", "4_HH0", some 50, 10, 100, some 10, some true⟩
      ⟨0, 5, "HH0", "5_HH0", "4_HH0", some 50, 10, 100, some 10, some true⟩
      ⟨1, 6, "P0", "6_P0", "5_HH0", some 60, 10, 110, some 10, none⟩
      (by with_unfolding_all decide) (by with_unfolding_all decide)
      (by with_unfolding_all decide) (by decide) (by decide)).2.2.2


/-- C7: when the last entry of `event.newIds` already has a non-null (and
non-zero, as all real scores are) `cumDiffScore` in `pool.scores`, the agent
returns the unchanged Decision — chaintip and honTip the pool's current
values, every other field null — and the pool's scores untouched; and
integrating that Decision changes no pool state, no block state, no
difficulty window, and pushes no events (the received ids are not pending
requests, as the first integration of the event already removed them). -/
theorem C7_already_scored_noop (P : DiffParams) (pools : List String)
    (blocks : Blocks) (dWins : SMap (List DiffEntry)) (p : Pool) (e : Event)
    (fuel : Nat) (nl : List String) (nt : String)
    (dP2H dBlock dReq dTrans : ℚ) (dBcast : String → ℚ)
    (hnl : e.newIds = some nl) (hlast : nl.getLast? = some nt)
    (hscored : jsTruthyInt ((p.scores.get nt).bind (·.cumDiffScore)) = true)
    (hdisj : ∀ id ∈ nl, id ∉ p.requestIds) :
    invokePoolAgent e p blocks fuel
      = some (⟨some p.chaintip, p.honTip, none, none, none, none⟩, p.scores) ∧
    integrateStrategyResults P pools blocks dWins p e
        ⟨some p.chaintip, p.honTip, none, none, none, none⟩
        dP2H dBlock dReq dTrans dBcast
      = some (p, blocks, dWins, []) := by
  constructor
  · rw [invokePoolAgent, hnl]
    simp only [hlast, hscored, if_true]
  · have hfilter : p.requestIds.filter
        (fun id => ¬ (e.newIds.getD []).contains id) = p.requestIds := by
      apply List.filter_eq_self.mpr
      intro id hid
      rw [hnl]
      simp only [Option.getD_some, decide_eq_true_eq]
      intro hcon
      exact hdisj id (by simpa using hcon) hid
    have hp1 : { p with requestIds :=
        p.requestIds.filter (fun id => ¬ (e.newIds.getD []).contains id) } = p := by
      rw [hfilter]
    have ht : integrateTimestamp P blocks dWins e
        ⟨some p.chaintip, p.honTip, none, none, none, none⟩ = some (blocks, dWins) := rfl
    have hs : integrateScores blocks p
        ⟨some p.chaintip, p.honTip, none, none, none, none⟩ = some p := rfl
    have hc : integrateChaintip blocks p e
        ⟨some p.chaintip, p.honTip, none, none, none, none⟩ dP2H dBlock = some (p, []) := by
      unfold integrateChaintip
      rw [if_pos rfl]
    have hr : integrateRequests blocks p e
        ⟨some p.chaintip, p.honTip, none, none, none, none⟩ dReq dTrans = some (p, []) := rfl
    unfold integrateStrategyResults
    simp only [hp1, ht, hs, hc, hr]
    rfl

/-- Witness for C7: re-delivering the already-scored `6_P0` integrates to an
unchanged pool, table, window cache, and no pushed events. -/
theorem C7_already_scored_noop_witness :
    integrateStrategyResults ⟨120, 5, 1, 1⟩ ["P0", "P1"]
        [("5_HH0", ⟨0, 5, "HH0", "5_HH0", "4_HH0", some 50, 10, 100, some 10, some true⟩),
         ("6_P0", ⟨1, 6, "P0", "6_P0", "5_HH0", some 60, 10, 110, some 10, some true⟩)]
        [] (⟨"P0", "6_P0", none, none, 0,
          [("5_HH0", ⟨0, 0, some 10, some 100, true, some "5_HH0"⟩),
           ("6_P0", ⟨1, 1, some 10, some 110, true, some "6_P0"⟩)],
          [], [], ⟨true, 0, 0⟩⟩ : Pool)
        ⟨3, "P0", "RECV_OTHER", none, some ["6_P0"]⟩
        ⟨some "6_P0", none, none, none, none, none⟩ 1 2 3 4 (fun _ => 5)
      = some (⟨"P0", "6_P0", none, none, 0,
          [("5_HH0", ⟨0, 0, some 10, some 100, true, some "5_HH0"⟩),
           ("6_P0", ⟨1, 1, some 10, some 110, true, some "6_P0"⟩)],
          [], [], ⟨true, 0, 0⟩⟩,
        [("5_HH0", ⟨0, 5, "HH0", "5_HH0", "4_HH0", some 50, 10, 100, some 10, some true⟩),
         ("6_P0", ⟨1, 6, "P0", "6_P0", "5_HH0", some 60, 10, 110, some 10, some true⟩)],
        [], []) :=
  (C7_already_scored_noop ⟨120, 5, 1, 1⟩ ["P0", "P1"]
      [("5_HH0", ⟨0, 5, "HH0", "5_HH0", "4_HH0", some 50, 10, 100, some 10, some true⟩),
       ("6_P0", ⟨1, 6, "P0", "6_P0", "5_HH0", some 60, 10, 110, some 10, some true⟩)]
      [] ⟨"P0", "6_P0", none, none, 0,
        [("5_HH0", ⟨0, 0, some 10, some 100, true, some "5_HH0"⟩),
         ("6_P0", ⟨1, 1, some 10, some 110, true, some "6_P0"⟩)],
        [], [], ⟨true, 0, 0⟩⟩
      ⟨3, "P0", "RECV_OTHER", none, some ["6_P0"]⟩ 10 ["6_P0"] "6_P0"
      1 2 3 4 (fun _ => 5) rfl rfl (by with_unfolding_all decide)
      (by intro id hid; simp at hid; subst hid; simp)).2

lemma popRun_chain (q : List Event) (ts : List ℚ) (h : PopRun q ts) :
    ts.Chain' (· ≤ ·) := by
  induction h with
  | nil => simp
  | step q e pushes rest hmem hmin hpush hrest ih =>
    rw [List.chain'_cons']
    refine ⟨?_, ih⟩
    intro y hy
    cases hrest with
    | nil => simp at hy
    | step q' e' pushes' rest' hmem' hmin' hpush' hrest' =>
      simp only [List.head?_cons, Option.mem_def, Option.some.injEq] at hy
      subst hy
      rcases List.mem_append.mp hmem' with hcase | hcase
      · exact hmin _ (List.mem_of_mem_erase hcase)
      · exact hpush _ hcase

lemma simulateBlockTime_bound (blocks : Blocks) (p : Pool) (now dP2H dBlock : ℚ)
    (ev : Event) (h1 : 0 ≤ dP2H) (h2 : 0 ≤ dBlock)
    (h : simulateBlockTime blocks p now dP2H dBlock = some ev) :
    now ≤ ev.simClock := by
  unfold simulateBlockTime at h
  split at h
  · cases h
  · have he := Option.some.inj h
    rw [← he]
    show now ≤ now + dP2H + dBlock
    linarith

lemma broadcastBlock_bound (pools : List String) (blocks : Blocks) (e : Event)
    (ids : List String) (dBcast : String → ℚ) (b' : Blocks) (evs : List Event)
    (h6 : ∀ q, 0 ≤ dBcast q)
    (h : broadcastBlock pools blocks e ids dBcast = some (b', evs)) :
    ∀ ev ∈ evs, e.simClock ≤ ev.simClock := by
  unfold broadcastBlock at h
  split at h
  · have he := (Prod.mk.injEq _ _ _ _).mp (Option.some.inj h)
    intro ev hev
    rw [← he.2] at hev
    simp only [List.mem_map] at hev
    obtain ⟨q, _, hq⟩ := hev
    rw [← hq]
    show e.simClock ≤ e.simClock + dBcast q
    linarith [h6 q]
  · cases h

lemma pair_eq_snd {α β : Type} {a₁ b₁ : α} {a₂ b₂ : β}
    (h : (a₁, a₂) = (b₁, b₂)) : a₂ = b₂ := by
  simpa using congrArg (fun t => t.2) h

lemma quad_eq_last {α β γ δ : Type} {a₁ b₁ : α} {a₂ b₂ : β} {a₃ b₃ : γ} {a₄ b₄ : δ}
    (h : (a₁, a₂, a₃, a₄) = (b₁, b₂, b₃, b₄)) : a₄ = b₄ := by
  simpa using congrArg (fun t => t.2.2.2) h

lemma integrateChaintip_bound (blocks2 : Blocks) (p2 : Pool) (e : Event)
    (results : Decision) (dP2H dBlock : ℚ) (p3 : Pool) (evs : List Event)
    (h1 : 0 ≤ dP2H) (h2 : 0 ≤ dBlock)
    (h : integrateChaintip blocks2 p2 e results dP2H dBlock = some (p3, evs)) :
    ∀ ev ∈ evs, e.simClock ≤ ev.simClock := by
  unfold integrateChaintip at h
  split at h
  · have hE := pair_eq_snd (Option.some.inj h)
    rw [← hE]
    simp
  · split at h
    · cases h
    · dsimp only at h
      split at h
      · cases h
      rename_i ev0 hsim
      have hE := pair_eq_snd (Option.some.inj h)
      rw [← hE]
      intro ev hev
      simp only [List.mem_singleton] at hev
      subst hev
      exact simulateBlockTime_bound _ _ _ _ _ _ h1 h2 hsim

lemma integrateRequests_bound (blocks2 : Blocks) (p3 : Pool) (e : Event)
    (results : Decision) (dReq dTrans : ℚ) (p4 : Pool) (evs : List Event)
    (h4 : 0 ≤ dReq) (h5 : 0 ≤ dTrans)
    (h : integrateRequests blocks2 p3 e results dReq dTrans = some (p4, evs)) :
    ∀ ev ∈ evs, e.simClock ≤ ev.simClock := by
  unfold integrateRequests at h
  split at h
  · have hE := pair_eq_snd (Option.some.inj h)
    rw [← hE]
    simp
  · rename_i rids heq
    dsimp only at h
    split at h
    · have hE := pair_eq_snd (Option.some.inj h)
      rw [← hE]
      simp
    · split at h
      · have hE := pair_eq_snd (Option.some.inj h)
        rw [← hE]
        intro ev hev
        simp only [List.mem_singleton] at hev
        subst hev
        show e.simClock ≤ e.simClock + 2 * dReq +
          dTrans * ((accumRequests p3.requestIds rids).2.length : ℚ)
        have hm : (0:ℚ) ≤ dTrans * ((accumRequests p3.requestIds rids).2.length : ℚ) :=
          mul_nonneg h5 (Nat.cast_nonneg _)
        linarith
      · cases h

lemma integrate_bound (P : DiffParams) (pools : List String) (blocks : Blocks)
    (dWins : SMap (List DiffEntry)) (p : Pool) (e : Event) (results : Decision)
    (dP2H dBlock dReq dTrans : ℚ) (dBcast : String → ℚ)
    (p' : Pool) (b' : Blocks) (d' : SMap (List DiffEntry)) (evs : List Event)
    (h1 : 0 ≤ dP2H) (h2 : 0 ≤ dBlock) (h4 : 0 ≤ dReq) (h5 : 0 ≤ dTrans)
    (h6 : ∀ q, 0 ≤ dBcast q)
    (h : integrateStrategyResults P pools blocks dWins p e results
          dP2H dBlock dReq dTrans dBcast = some (p', b', d', evs)) :
    ∀ ev ∈ evs, e.simClock ≤ ev.simClock := by
  unfold integrateStrategyResults at h
  rcases hts : integrateTimestamp P blocks dWins e results with _ | ⟨blocks2, dWins2⟩
  · simp only [hts] at h
    cases h
  simp only [hts] at h
  rcases hsc : integrateScores blocks2
      { p with requestIds :=
          p.requestIds.filter (fun id => ¬ (e.newIds.getD []).contains id) }
      results with _ | p2
  · simp only [hsc] at h
    cases h
  simp only [hsc] at h
  rcases hct : integrateChaintip blocks2 p2 e results dP2H dBlock with _ | ⟨p3, evs1⟩
  · simp only [hct] at h
    cases h
  simp only [hct] at h
  rcases hrq : integrateRequests blocks2 p3 e results dReq dTrans with _ | ⟨p4, evs2⟩
  · simp only [hrq] at h
    cases h
  simp only [hrq] at h
  have hevs1 := integrateChaintip_bound _ _ _ _ _ _ _ _ h1 h2 hct
  have hevs2 := integrateRequests_bound _ _ _ _ _ _ _ _ h4 h5 hrq
  rcases hb : results.broadcastIds with _ | l <;> simp only [hb] at h
  · have hE := quad_eq_last (Option.some.inj h)
    rw [← hE]
    intro ev hev
    rcases List.mem_append.mp hev with hm | hm
    · exact hevs1 _ hm
    · exact hevs2 _ hm
  · split at h
    · rcases hbc : broadcastBlock pools blocks2 e l dBcast with _ | ⟨blocks3, evs3⟩
      · simp only [hbc] at h
        cases h
      simp only [hbc] at h
      have hE := quad_eq_last (Option.some.inj h)
      rw [← hE]
      intro ev hev
      rcases List.mem_append.mp hev with hm | hm
      · rcases List.mem_append.mp hm with hm2 | hm2
        · exact hevs1 _ hm2
        · exact hevs2 _ hm2
      · exact broadcastBlock_bound _ _ _ _ _ _ _ h6 hbc _ hm
    · have hE := quad_eq_last (Option.some.inj h)
      rw [← hE]
      intro ev hev
      rcases List.mem_append.mp hev with hm | hm
      · exact hevs1 _ hm
      · exact hevs2 _ hm

/-- **C3.**  No handler ever schedules an event in the past, and the popped
simClocks of every run are non-decreasing: (1) `simulateBlockTime` pushes its
`HASHER_FIND` at `now + owdP2H() + blockTime`, never before `now`;
(2) `hasherFindsBlock` pushes its `RECV_OWN` copy at `e.simClock + owdP2H()`,
never before `e.simClock`; (3) every event pushed by
`integrateStrategyResults` (the reschedule of step 5, the refetch of step 6
and the broadcasts of step 7) carries a simClock `≥ e.simClock`, the delay
draws being non-negative; (4) consequently, along any run of the engine loop
(`PopRun`: pop a simClock-minimal event, push only events no earlier than it),
the popped simClock sequence is monotone non-decreasing. -/
theorem C3_no_past_events :
    (∀ blocks p now dP2H dBlock ev, 0 ≤ dP2H → 0 ≤ dBlock →
        simulateBlockTime blocks p now dP2H dBlock = some ev →
        now ≤ ev.simClock)
  ∧ (∀ blocks p e dCheck dSend ev, 0 ≤ dSend →
        hasherFindsBlock blocks p e dCheck dSend = .push ev →
        e.simClock ≤ ev.simClock)
  ∧ (∀ P pools blocks dWins p e results dP2H dBlock dReq dTrans dBcast
        p' b' d' evs,
        0 ≤ dP2H → 0 ≤ dBlock → 0 ≤ dReq → 0 ≤ dTrans →
        (∀ q, 0 ≤ dBcast q) →
        integrateStrategyResults P pools blocks dWins p e results
            dP2H dBlock dReq dTrans dBcast = some (p', b', d', evs) →
        ∀ ev ∈ evs, e.simClock ≤ ev.simClock)
  ∧ (∀ q ts, PopRun q ts → ts.Chain' (· ≤ ·)) := by
  refine ⟨?_, ?_, ?_, ?_⟩
  · intro blocks p now dP2H dBlock ev h1 h2 h
    exact simulateBlockTime_bound blocks p now dP2H dBlock ev h1 h2 h
  · intro blocks p e dCheck dSend ev h5 h
    unfold hasherFindsBlock at h
    split at h
    · have he := HasherResult.push.inj h
      rw [← he]
      show e.simClock ≤ e.simClock + dSend
      linarith
    · split at h
      · cases h
      · split at h
        · split at h
          · cases h
          · split at h
            · cases h
            · have he := HasherResult.push.inj h
              rw [← he]
              show e.simClock ≤ e.simClock + dSend
              linarith
        · cases h
  · intro P pools blocks dWins p e results dP2H dBlock dReq dTrans dBcast
      p' b' d' evs h1 h2 h4 h5 h6 h
    exact integrate_bound P pools blocks dWins p e results dP2H dBlock
      dReq dTrans dBcast p' b' d' evs h1 h2 h4 h5 h6 h
  · intro q ts h
    exact popRun_chain q ts h

/-- Witness: each conjunct of C3 evaluated at a concrete input. -/
theorem C3_no_past_events_witness :
    ((0:ℚ) ≤ (0:ℚ) + 1 + 2)
  ∧ ((101:ℚ) ≤ (101:ℚ) + 2)
  ∧ (∀ ev ∈ ([] : List Event), (101:ℚ) ≤ ev.simClock)
  ∧ List.Chain' (· ≤ ·) ([] : List ℚ) := by
  refine ⟨?_, ?_, ?_, ?_⟩
  · exact C3_no_past_events.1
      [("7_HH0", ⟨100, 7, "HH0", "7_HH0", "6_HH0", some 99, 5, 50, some 6, some true⟩)]
      ⟨"P0", "7_HH0", none, none, 0,
        [("7_HH0", ⟨100, 100, some 5, some 50, true, some "7_HH0"⟩)], [], [], ⟨true, 0, 0⟩⟩
      0 1 2 ⟨(0:ℚ) + 1 + 2, "P0", "HASHER_FIND", some "7_HH0", none⟩
      (by norm_num) (by norm_num) (by with_unfolding_all rfl)
  · exact C3_no_past_events.2.1
      [("7_HH0", ⟨100, 7, "HH0", "7_HH0", "6_HH0", some 99, 5, 50, some 6, some true⟩)]
      ⟨"P0", "7_HH0", none, none, 0,
        [("7_HH0", ⟨100, 100, some 5, some 50, true, some "7_HH0"⟩)], [], [], ⟨true, 0, 0⟩⟩
      ⟨101, "P0", "HASHER_FIND", some "7_HH0", none⟩ 1 2
      ⟨(101:ℚ) + 2, "P0", "RECV_OWN", some "7_HH0", none⟩
      (by norm_num) (by with_unfolding_all rfl)
  · exact C3_no_past_events.2.2.1
      ⟨120, 720, 15, 60⟩ ["P0", "P1"]
      [("7_HH0", ⟨100, 7, "HH0", "7_HH0", "6_HH0", some 99, 5, 50, some 6, some true⟩)]
      []
      ⟨"P0", "7_HH0", none, none, 0,
        [("7_HH0", ⟨100, 100, some 5, some 50, true, some "7_HH0"⟩)], [], [], ⟨true, 0, 0⟩⟩
      ⟨101, "P0", "RECV_OWN", some "7_HH0", none⟩
      ⟨some "7_HH0", none, none, none, none, none⟩
      1 2 3 4 (fun _ => 0)
      ⟨"P0", "7_HH0", none, none, 0,
        [("7_HH0", ⟨100, 100, some 5, some 50, true, some "7_HH0"⟩)], [], [], ⟨true, 0, 0⟩⟩
      [("7_HH0", ⟨100, 7, "HH0", "7_HH0", "6_HH0", some 99, 5, 50, some 6, some true⟩)]
      [] []
      (by norm_num) (by norm_num) (by norm_num) (by norm_num)
      (fun _ => le_refl 0) (by with_unfolding_all rfl)
  · exact C3_no_past_events.2.2.2 [] [] (PopRun.nil [])

lemma SMap.get_eq_some_mem {α : Type} {m : SMap α} {t : String} {v : α}
    (h : m.get t = some v) : (t, v) ∈ m := by
  induction m with
  | nil => simp [SMap.get] at h
  | cons p rest ih =>
    rw [SMap.get, List.find?_cons] at h
    by_cases hp : p.1 = t
    · rw [decide_eq_true hp] at h
      have h2 : p.2 = v := by simpa using h
      have hpv : p = (t, v) := by
        cases p
        simp only at hp h2
        simp [hp, h2]
      simp [hpv]
    · rw [decide_eq_false hp] at h
      exact List.mem_cons_of_mem p (ih h)

lemma SMap.mem_get_of_nodup {α : Type} {m : SMap α} {t : String} {v : α}
    (hnd : m.keys.Nodup) (h : (t, v) ∈ m) : m.get t = some v := by
  induction m with
  | nil => simp at h
  | cons p rest ih =>
    rw [SMap.keys, List.map_cons, List.nodup_cons] at hnd
    rcases List.mem_cons.mp h with h1 | h1
    · rw [← h1, SMap.get, List.find?_cons, decide_eq_true rfl]
      rfl
    · have hne : p.1 ≠ t := by
        intro he
        exact hnd.1 (he ▸ (List.mem_map.mpr ⟨(t, v), h1, rfl⟩))
      rw [SMap.get, List.find?_cons, decide_eq_false hne]
      exact ih hnd.2 h1

lemma SMap.get_eq_none_forall {α : Type} {m : SMap α} {t : String}
    (h : m.get t = none) : ∀ q ∈ m, q.1 ≠ t := by
  intro q hq he
  rw [SMap.get] at h
  rcases hf : List.find? (fun p => decide (p.1 = t)) m with _ | r
  · have := List.find?_eq_none.mp hf q hq
    simp [he] at this
  · rw [hf] at h
    simp at h

lemma SMap.mem_keys_set {α : Type} (m : SMap α) (k : String) (v : α)
    (a : String) (h : a ∈ (m.set k v).keys) : a ∈ m.keys ∨ a = k := by
  induction m with
  | nil => simp [SMap.set, SMap.keys] at h; right; exact h
  | cons p rest ih =>
    rw [SMap.set] at h
    by_cases hp : p.1 = k
    · rw [if_pos hp] at h
      rw [SMap.keys, List.map_cons, List.mem_cons] at h
      rcases h with h | h
      · right; exact h
      · left; rw [SMap.keys, List.map_cons, List.mem_cons]; right; exact h
    · rw [if_neg hp] at h
      rw [SMap.keys, List.map_cons, List.mem_cons] at h
      rcases h with h | h
      · left; rw [SMap.keys, List.map_cons, List.mem_cons]; left; exact h
      · rcases ih h with h2 | h2
        · left; rw [SMap.keys, List.map_cons, List.mem_cons]; right; exact h2
        · right; exact h2

lemma SMap.nodup_keys_set {α : Type} (m : SMap α) (k : String) (v : α)
    (hnd : m.keys.Nodup) : (m.set k v).keys.Nodup := by
  induction m with
  | nil => simp [SMap.set, SMap.keys]
  | cons p rest ih =>
    rw [SMap.keys, List.map_cons, List.nodup_cons] at hnd
    rw [SMap.set]
    by_cases hp : p.1 = k
    · rw [if_pos hp]
      rw [SMap.keys, List.map_cons, List.nodup_cons]
      exact ⟨hp ▸ hnd.1, hnd.2⟩
    · rw [if_neg hp]
      rw [SMap.keys, List.map_cons, List.nodup_cons]
      refine ⟨?_, ih hnd.2⟩
      intro hmem
      rcases SMap.mem_keys_set rest k v p.1 hmem with h2 | h2
      · exact hnd.1 h2
      · exact hp h2

lemma HeadInv.write {tip : String} {tipSc : Score} {st : AgentSt}
    (h : HeadInv tip tipSc st) (id : String) (s : Score) :
    HeadInv tip tipSc (st.write id s) := by
  obtain ⟨h1, h2, h3⟩ := h
  refine ⟨?_, h2, SMap.nodup_keys_set _ _ _ h3⟩
  rw [AgentSt.write]
  by_cases hal : id ∈ st.aliased
  · rw [if_pos hal]
    have hne : tip ≠ id := fun he => h2 (he ▸ hal)
    rw [SMap.get_set_ne _ _ _ _ hne]
    exact h1
  · rw [if_neg hal]
    exact h1

lemma HeadInv.addFresh {tip : String} {tipSc : Score} {st : AgentSt}
    (h : HeadInv tip tipSc st) (id : String) (s : Score) :
    HeadInv tip tipSc (st.addFresh id s) := by
  obtain ⟨h1, h2, h3⟩ := h
  exact ⟨h1, h2, SMap.nodup_keys_set _ _ _ h3⟩

lemma HeadInv.addAlias {tip : String} {tipSc : Score} {st : AgentSt}
    (h : HeadInv tip tipSc st) (id : String) (s : Score) (hne : id ≠ tip) :
    HeadInv tip tipSc (st.addAlias id s) := by
  obtain ⟨h1, h2, h3⟩ := h
  refine ⟨h1, ?_, SMap.nodup_keys_set _ _ _ h3⟩
  rw [AgentSt.addAlias]
  intro hmem
  rcases List.mem_append.mp hmem with hm | hm
  · exact h2 hm
  · simp only [List.mem_singleton] at hm
    exact hne hm.symm

lemma resolveBranchLoop_inv (blocks : Blocks) (e : Event) (p : Pool)
    (nl : List String) (sh : Int) (tip : String) (tipSc : Score)
    (hhp : tipSc.isHeadPath = true) :
    ∀ (fuel : Nat) (id : String) (st : AgentSt) (sIds reqIds : List String)
      (st1 : AgentSt) (w : List String) (a : String) (r : List String),
      HeadInv tip tipSc st →
      resolveBranchLoop blocks e p nl sh fuel id st sIds reqIds
        = some (st1, w, a, r) →
      HeadInv tip tipSc st1 := by
  intro fuel
  induction fuel with
  | zero => intro id st sIds reqIds st1 w a r _ h; cases h
  | succ n ih =>
    intro id st sIds reqIds st1 w a r hinv h
    rw [resolveBranchLoop] at h
    rcases hps : st.pScores.get id with _ | sc
    · simp only [hps] at h
      by_cases hnl : nl.contains id
      · rw [if_pos hnl] at h
        rcases hb : blocks.get id with _ | blk
        · simp only [hb] at h; cases h
        simp only [hb] at h
        by_cases hh : blk.height ≥ sh
        · rw [if_pos hh] at h
          exact ih _ _ _ _ _ _ _ _ (hinv.addFresh id (freshScore e p)) h
        · rw [if_neg hh] at h
          exact ih _ _ _ _ _ _ _ _ hinv h
      · rw [if_neg hnl] at h
        rcases hb : blocks.get id with _ | blk
        · simp only [hb] at h; cases h
        simp only [hb] at h
        exact ih _ _ _ _ _ _ _ _ hinv h
    · simp only [hps] at h
      by_cases hbr : sc.isHeadPath
      · rw [if_pos hbr] at h
        have h1 : st = st1 := congrArg Prod.fst (Option.some.inj h)
        rw [← h1]
        exact hinv
      · rw [if_neg hbr] at h
        rcases hb : blocks.get id with _ | blk
        · simp only [hb] at h; cases h
        simp only [hb] at h
        by_cases hh : blk.height ≥ sh
        · rw [if_pos hh] at h
          have hne : id ≠ tip := by
            intro he
            rw [he, hinv.1] at hps
            have hsc : tipSc = sc := Option.some.inj hps
            rw [← hsc] at hbr
            exact hbr hhp
          exact ih _ _ _ _ _ _ _ _ (hinv.addAlias id sc hne) h
        · rw [if_neg hh] at h
          exact ih _ _ _ _ _ _ _ _ hinv h

lemma scoreBlock_inv (blocks : Blocks) (st : AgentSt) (id : String)
    (tip : String) (tipSc : Score) (st' : AgentSt) (ok : Bool)
    (hinv : HeadInv tip tipSc st)
    (h : scoreBlock blocks st id = some (st', ok)) :
    HeadInv tip tipSc st' := by
  rw [scoreBlock] at h
  rcases hb : blocks.get id with _ | blk
  · simp only [hb] at h; cases h
  simp only [hb] at h
  split at h
  · have h2 := (Prod.mk.injEq _ _ _ _).mp (Option.some.inj h)
    rw [← h2.1]
    exact hinv
  · rcases hl : st.loc.get id with _ | sc
    · simp only [hl] at h; cases h
    simp only [hl] at h
    have h2 := (Prod.mk.injEq _ _ _ _).mp (Option.some.inj h)
    rw [← h2.1]
    exact hinv.write id _

lemma scoreLoop_inv (blocks : Blocks) (tip : String) (tipSc : Score) :
    ∀ (ids : List String) (st st' : AgentSt),
      HeadInv tip tipSc st →
      scoreLoop blocks ids st = some st' →
      HeadInv tip tipSc st' := by
  intro ids
  induction ids with
  | nil =>
    intro st st' hinv h
    rw [scoreLoop] at h
    rw [← Option.some.inj h]
    exact hinv
  | cons id rest ih =>
    intro st st' hinv h
    rw [scoreLoop] at h
    rcases hsb : scoreBlock blocks st id with _ | r
    · simp only [hsb] at h; cases h
    simp only [hsb] at h
    have hinv1 := scoreBlock_inv blocks st id tip tipSc r.1 r.2 hinv hsb
    by_cases hok : r.2 = true
    · rw [hok] at h
      simp only [if_true] at h
      exact ih _ _ hinv1 h
    · rw [eq_false_of_ne_true hok] at h
      simp only [Bool.false_eq_true, if_false] at h
      rw [← Option.some.inj h]
      exact hinv1

lemma scoreDanglingLoop_inv (blocks : Blocks) (tip : String) (tipSc : Score) :
    ∀ (uns : List (String × Int)) (prevIds : List (Int × List String))
      (st st' : AgentSt),
      (∀ q ∈ uns, q.1 ≠ tip) →
      HeadInv tip tipSc st →
      scoreDanglingLoop blocks uns prevIds st = some st' →
      HeadInv tip tipSc st' := by
  intro uns
  induction uns with
  | nil =>
    intro prevIds st st' _ hinv h
    rw [scoreDanglingLoop] at h
    rw [← Option.some.inj h]
    exact hinv
  | cons q rest ih =>
    intro prevIds st st' hne hinv h
    rw [scoreDanglingLoop] at h
    rcases hil : ilookup prevIds (q.2 - 1) with _ | ids
    · simp only [hil] at h
      rw [← Option.some.inj h]
      exact hinv
    simp only [hil] at h
    rcases hb : blocks.get q.1 with _ | blk
    · simp only [hb] at h; cases h
    simp only [hb] at h
    by_cases hmem : blk.prevId ∈ ids
    · rw [if_pos hmem] at h
      rcases hps : st.pScores.get q.1 with _ | psc
      · simp only [hps] at h; cases h
      simp only [hps] at h
      rcases hsb : scoreBlock blocks (st.addAlias q.1 psc) q.1 with _ | r
      · simp only [hsb] at h; cases h
      simp only [hsb] at h
      have hq1 : q.1 ≠ tip := hne q (List.mem_cons_self q rest)
      have hinv1 := scoreBlock_inv blocks _ q.1 tip tipSc r.1 r.2
        (hinv.addAlias q.1 psc hq1) hsb
      exact ih _ _ _ (fun x hx => hne x (List.mem_cons_of_mem q hx)) hinv1 h
    · rw [if_neg hmem] at h
      exact ih _ _ _ (fun x hx => hne x (List.mem_cons_of_mem q hx)) hinv h

lemma scoreDanglingChaintips_inv (blocks : Blocks) (unscored : SMap Int)
    (st st' : AgentSt) (newTip : String) (tip : String) (tipSc : Score)
    (huns : unscored.get tip = none)
    (hinv : HeadInv tip tipSc st)
    (h : scoreDanglingChaintips blocks unscored st newTip = some st') :
    HeadInv tip tipSc st' := by
  rw [scoreDanglingChaintips] at h
  split at h
  · rw [← Option.some.inj h]
    exact hinv
  · rcases hb : blocks.get newTip with _ | nb
    · simp only [hb] at h; cases h
    simp only [hb] at h
    refine scoreDanglingLoop_inv blocks tip tipSc _ _ _ _ ?_ hinv h
    intro q hq
    have hq2 : q ∈ unscored := by
      have := (List.mem_mergeSort).mp hq
      exact (List.mem_filter.mp this).1
    exact SMap.get_eq_none_forall huns q hq2

lemma findHighestScore_spec (loc : SMap Score) :
    findHighestScore loc = (some 0, none) ∨
    ∃ t sc, findHighestScore loc = (sc.cumDiffScore, some t) ∧ (t, sc) ∈ loc := by
  rw [findHighestScore]
  have main : ∀ (l : List (String × Score)) (acc : Option Int × Option String),
      (∀ q ∈ l, q ∈ loc) →
      (acc = (some 0, none) ∨
        ∃ t sc, acc = (sc.cumDiffScore, some t) ∧ (t, sc) ∈ loc) →
      (l.foldl
          (fun acc q =>
            if jsNum q.2.cumDiffScore > jsNum acc.1 then (q.2.cumDiffScore, some q.1)
            else acc)
          acc = (some 0, none) ∨
        ∃ t sc,
          l.foldl
            (fun acc q =>
              if jsNum q.2.cumDiffScore > jsNum acc.1 then (q.2.cumDiffScore, some q.1)
              else acc)
            acc = (sc.cumDiffScore, some t) ∧ (t, sc) ∈ loc) := by
    intro l
    induction l with
    | nil => intro acc _ hacc; exact hacc
    | cons q rest ih =>
      intro acc hsub hacc
      rw [List.foldl_cons]
      by_cases hc : jsNum q.2.cumDiffScore > jsNum acc.1
      · rw [if_pos hc]
        refine ih _ (fun x hx => hsub x (List.mem_cons_of_mem q hx)) ?_
        right
        exact ⟨q.1, q.2, rfl, hsub q (List.mem_cons_self q rest)⟩
      · rw [if_neg hc]
        exact ih _ (fun x hx => hsub x (List.mem_cons_of_mem q hx)) hacc
  exact main loc (some 0, none) (fun q hq => hq) (Or.inl rfl)

lemma setChaintipsFold_cum (ct : Option String) (t : String) (c : Option Int) :
    ∀ (l : List (String × Score)) (acc : AgentSt),
      acc.loc.keys.Nodup → CumAt acc.loc t c →
      (∀ q ∈ l, q.1 = t → q.2.cumDiffScore = c) →
      (l.foldl
          (fun acc q =>
            if q.2.chaintip = none then acc.write q.1 { q.2 with chaintip := ct }
            else acc)
          acc).loc.keys.Nodup ∧
      CumAt
        (l.foldl
          (fun acc q =>
            if q.2.chaintip = none then acc.write q.1 { q.2 with chaintip := ct }
            else acc)
          acc).loc t c := by
  intro l
  induction l with
  | nil => intro acc h1 h2 _; exact ⟨h1, h2⟩
  | cons q rest ih =>
    intro acc h1 h2 h3
    rw [List.foldl_cons]
    by_cases hc : q.2.chaintip = none
    · rw [if_pos hc]
      refine ih _ (SMap.nodup_keys_set _ _ _ h1) ?_
        (fun x hx hxt => h3 x (List.mem_cons_of_mem q hx) hxt)
      by_cases hqt : q.1 = t
      · refine ⟨{ q.2 with chaintip := ct }, ?_, ?_⟩
        · rw [AgentSt.write]
          rw [hqt, SMap.get_set_self]
        · exact h3 q (List.mem_cons_self q rest) hqt
      · obtain ⟨sc, hget, hcum⟩ := h2
        refine ⟨sc, ?_, hcum⟩
        rw [AgentSt.write]
        rw [SMap.get_set_ne _ _ _ _ (fun he => hqt (he.symm))]
        exact hget
    · rw [if_neg hc]
      exact ih _ h1 h2 (fun x hx hxt => h3 x (List.mem_cons_of_mem q hx) hxt)

lemma setChaintips_cum (st : AgentSt) (ct : Option String) (t : String)
    (c : Option Int) (hnd : st.loc.keys.Nodup) (hcum : CumAt st.loc t c)
    (h3 : ∀ q ∈ st.loc, q.1 = t → q.2.cumDiffScore = c) :
    (setChaintips st ct).loc.keys.Nodup ∧ CumAt (setChaintips st ct).loc t c := by
  rw [setChaintips]
  exact setChaintipsFold_cum ct t c st.loc st hnd hcum h3

lemma smap_get_of_nodup_unique {m : SMap Score} {t : String} {sc sc' : Score}
    (hnd : m.keys.Nodup) (hg : m.get t = some sc) (hm : (t, sc') ∈ m) :
    sc' = sc := by
  have := SMap.mem_get_of_nodup hnd hm
  rw [hg] at this
  exact (Option.some.inj this).symm

lemma propagateTrueLoop_cum (blocks : Blocks) (pCh anc : String)
    (t : String) (c : Option Int) :
    ∀ (fuel : Nat) (id : String) (st st1 : AgentSt) (stop : String),
      st.loc.keys.Nodup → CumAt st.loc t c →
      propagateTrueLoop blocks pCh anc fuel id st = some (st1, stop) →
      st1.loc.keys.Nodup ∧ CumAt st1.loc t c := by
  intro fuel
  induction fuel with
  | zero => intro id st st1 stop _ _ h; cases h
  | succ n ih =>
    intro id st st1 stop hnd hcum h
    rw [propagateTrueLoop] at h
    by_cases hstop : id = pCh ∨ id = anc
    · rw [if_pos hstop] at h
      have h2 := (Prod.mk.injEq _ _ _ _).mp (Option.some.inj h)
      rw [← h2.1]
      exact ⟨hnd, hcum⟩
    · rw [if_neg hstop] at h
      rcases hlg : st.loc.get id with _ | sc0
      · simp only [hlg] at h
        rcases hpg : st.pScores.get id with _ | psc
        · simp only [hpg] at h
          cases h
        simp only [hpg] at h
        rcases hb : blocks.get id with _ | blk
        · simp only [hb] at h; cases h
        simp only [hb] at h
        have hidt : id ≠ t := by
          intro he
          obtain ⟨sc, hget, _⟩ := hcum
          rw [he, hget] at hlg
          cases hlg
        refine ih _ _ _ _ ?_ ?_ h
        · exact SMap.nodup_keys_set _ _ _ (SMap.nodup_keys_set _ _ _ hnd)
        · obtain ⟨sc, hget, hcum2⟩ := hcum
          refine ⟨sc, ?_, hcum2⟩
          show ((st.addAlias id psc).loc.set id _).get t = some sc
          rw [SMap.get_set_ne _ _ _ _ (fun he => hidt he.symm)]
          rw [AgentSt.addAlias]
          show (st.loc.set id psc).get t = some sc
          rw [SMap.get_set_ne _ _ _ _ (fun he => hidt he.symm)]
          exact hget
      · simp only [hlg] at h
        rcases hb : blocks.get id with _ | blk
        · simp only [hb] at h; cases h
        simp only [hb] at h
        refine ih _ _ _ _ ?_ ?_ h
        · exact SMap.nodup_keys_set _ _ _ hnd
        · by_cases hidt : id = t
          · obtain ⟨sc, hget, hcum2⟩ := hcum
            have hsc : sc0 = sc := by
              rw [hidt, hget] at hlg
              exact (Option.some.inj hlg).symm
            refine ⟨{ sc0 with isHeadPath := true }, ?_, ?_⟩
            · show (st.loc.set id _).get t = some _
              rw [hidt, SMap.get_set_self]
            · rw [hsc]
              exact hcum2
          · obtain ⟨sc, hget, hcum2⟩ := hcum
            refine ⟨sc, ?_, hcum2⟩
            show (st.loc.set id _).get t = some sc
            rw [SMap.get_set_ne _ _ _ _ (fun he => hidt he.symm)]
            exact hget

lemma propagateFalseLoop_cum (blocks : Blocks) (anc : String)
    (t : String) (c : Option Int) :
    ∀ (fuel : Nat) (id : String) (st st1 : AgentSt),
      st.loc.keys.Nodup → CumAt st.loc t c →
      propagateFalseLoop blocks anc fuel id st = some st1 →
      st1.loc.keys.Nodup ∧ CumAt st1.loc t c := by
  intro fuel
  induction fuel with
  | zero => intro id st st1 _ _ h; cases h
  | succ n ih =>
    intro id st st1 hnd hcum h
    rw [propagateFalseLoop] at h
    by_cases hstop : id = anc
    · rw [if_pos hstop] at h
      rw [← Option.some.inj h]
      exact ⟨hnd, hcum⟩
    · rw [if_neg hstop] at h
      rcases hlg : st.loc.get id with _ | sc0
      · simp only [hlg] at h
        rcases hpg : st.pScores.get id with _ | psc
        · simp only [hpg] at h
          cases h
        simp only [hpg] at h
        rcases hb : blocks.get id with _ | blk
        · simp only [hb] at h; cases h
        simp only [hb] at h
        have hidt : id ≠ t := by
          intro he
          obtain ⟨sc, hget, _⟩ := hcum
          rw [he, hget] at hlg
          cases hlg
        refine ih _ _ _ ?_ ?_ h
        · exact SMap.nodup_keys_set _ _ _ (SMap.nodup_keys_set _ _ _ hnd)
        · obtain ⟨sc, hget, hcum2⟩ := hcum
          refine ⟨sc, ?_, hcum2⟩
          show ((st.addAlias id psc).loc.set id _).get t = some sc
          rw [SMap.get_set_ne _ _ _ _ (fun he => hidt he.symm)]
          rw [AgentSt.addAlias]
          show (st.loc.set id psc).get t = some sc
          rw [SMap.get_set_ne _ _ _ _ (fun he => hidt he.symm)]
          exact hget
      · simp only [hlg] at h
        rcases hb : blocks.get id with _ | blk
        · simp only [hb] at h; cases h
        simp only [hb] at h
        refine ih _ _ _ ?_ ?_ h
        · exact SMap.nodup_keys_set _ _ _ hnd
        · by_cases hidt : id = t
          · obtain ⟨sc, hget, hcum2⟩ := hcum
            have hsc : sc0 = sc := by
              rw [hidt, hget] at hlg
              exact (Option.some.inj hlg).symm
            refine ⟨{ sc0 with isHeadPath := false }, ?_, ?_⟩
            · show (st.loc.set id _).get t = some _
              rw [hidt, SMap.get_set_self]
            · rw [hsc]
              exact hcum2
          · obtain ⟨sc, hget, hcum2⟩ := hcum
            refine ⟨sc, ?_, hcum2⟩
            show (st.loc.set id _).get t = some sc
            rw [SMap.get_set_ne _ _ _ _ (fun he => hidt he.symm)]
            exact hget

lemma propagateHeadPathToScores_cum (blocks : Blocks) (p : Pool)
    (st : AgentSt) (ancestorId : String) (results : Decision) (fuel : Nat)
    (st4 : AgentSt) (t : String) (c : Option Int)
    (hnd : st.loc.keys.Nodup) (hcum : CumAt st.loc t c)
    (h : propagateHeadPathToScores blocks p st ancestorId results fuel
          = some st4) :
    st4.loc.keys.Nodup ∧ CumAt st4.loc t c := by
  rw [propagateHeadPathToScores] at h
  rcases hrc : results.chaintip with _ | startId
  · simp only [hrc] at h
    cases h
  simp only [hrc] at h
  have hset := setChaintips_cum st (some startId) t c hnd hcum ?side
  case side =>
    intro q hq hqt
    obtain ⟨sc, hget, hcum2⟩ := hcum
    have hq2 : (t, q.2) ∈ st.loc := by
      have hq3 : (q.1, q.2) ∈ st.loc := by simpa using hq
      rwa [hqt] at hq3
    rw [smap_get_of_nodup_unique hnd hget hq2]
    exact hcum2
  rcases htl : propagateTrueLoop blocks p.chaintip ancestorId fuel startId
      (setChaintips st (some startId)) with _ | r
  · simp only [htl] at h
    cases h
  have hr := propagateTrueLoop_cum blocks p.chaintip ancestorId t c fuel
    startId _ r.1 r.2 hset.1 hset.2 htl
  simp only [htl] at h
  by_cases hstop : r.2 = ancestorId
  · rw [if_pos hstop] at h
    exact propagateFalseLoop_cum blocks ancestorId t c fuel p.chaintip
      r.1 st4 hr.1 hr.2 h
  · rw [if_neg hstop] at h
    rw [← Option.some.inj h]
    exact hr

lemma foldl_set_get_of_not_mem {α : Type} (t : String) :
    ∀ (l : List (String × α)) (acc : SMap α),
      (∀ q ∈ l, q.1 ≠ t) →
      (l.foldl (fun a q => SMap.set a q.1 q.2) acc).get t = acc.get t := by
  intro l
  induction l with
  | nil => intro acc _; rfl
  | cons q rest ih =>
    intro acc hne
    rw [List.foldl_cons]
    rw [ih _ (fun x hx => hne x (List.mem_cons_of_mem q hx))]
    exact SMap.get_set_ne _ _ _ _ (fun he => hne q (List.mem_cons_self q rest) he.symm)

lemma foldl_set_get_of_mem {α : Type} (t : String) (sc : α) :
    ∀ (l : List (String × α)) (acc : SMap α),
      (l.map Prod.fst).Nodup → (t, sc) ∈ l →
      (l.foldl (fun a q => SMap.set a q.1 q.2) acc).get t = some sc := by
  intro l
  induction l with
  | nil => intro acc _ hm; simp at hm
  | cons q rest ih =>
    intro acc hnd hm
    rw [List.map_cons, List.nodup_cons] at hnd
    rw [List.foldl_cons]
    rcases List.mem_cons.mp hm with h1 | h1
    · have hne : ∀ x ∈ rest, x.1 ≠ t := by
        intro x hx he
        have hx2 : x.1 ∈ List.map Prod.fst rest := List.mem_map.mpr ⟨x, hx, rfl⟩
        rw [he] at hx2
        apply hnd.1
        rw [← h1]
        exact hx2
      rw [foldl_set_get_of_not_mem t rest _ hne]
      rw [← h1]
      exact SMap.get_set_self _ _ _
    · exact ih _ hnd.2 h1

lemma integrateScores_get (blocks2 : Blocks) (p1 : Pool) (results : Decision)
    (m : SMap Score) (t : String) (sc : Score) (p2 : Pool)
    (hm : results.scores = some m)
    (hnd : m.keys.Nodup)
    (hmem : (t, sc) ∈ m)
    (h : integrateScores blocks2 p1 results = some p2) :
    p2.scores.get t = some sc := by
  rw [integrateScores] at h
  simp only [hm] at h
  split at h
  · have hp2 := Option.some.inj h
    rw [← hp2]
    show ((m.mergeSort _).foldl (fun a q => SMap.set a q.1 q.2) p1.scores).get t
      = some sc
    have hperm : (m.mergeSort (fun a b =>
        ((blocks2.get a.1).map (·.height)).getD 0
          ≤ ((blocks2.get b.1).map (·.height)).getD 0)).Perm m :=
      List.mergeSort_perm m _
    refine foldl_set_get_of_mem t sc _ p1.scores ?_ ?_
    · exact ((hperm.map Prod.fst).nodup_iff).mpr hnd
    · exact hperm.mem_iff.mpr hmem
  · cases h

lemma integrateChaintip_tip (blocks2 : Blocks) (p2 : Pool) (e : Event)
    (results : Decision) (dP2H dBlock : ℚ) (p3 : Pool) (evs : List Event)
    (t : String)
    (hc : results.chaintip = some t)
    (h : integrateChaintip blocks2 p2 e results dP2H dBlock = some (p3, evs)) :
    p3.chaintip = t := by
  rw [integrateChaintip] at h
  split at h
  · rename_i heq
    rw [hc] at heq
    have h2 := (Prod.mk.injEq _ _ _ _).mp (Option.some.inj h)
    rw [← h2.1]
    exact (Option.some.inj heq).symm
  · simp only [hc] at h
    rcases hs : simulateBlockTime blocks2 { p2 with chaintip := t } e.simClock
        dP2H dBlock with _ | ev
    · simp only [hs] at h
      cases h
    · simp only [hs] at h
      have h2 := (Prod.mk.injEq _ _ _ _).mp (Option.some.inj h)
      rw [← h2.1]

lemma invoke_honest_head (e : Event) (p : Pool) (blocks : Blocks) (fuel : Nat)
    (d : Decision) (sc2 : SMap Score) (tipSc : Score) (v : Int)
    (hp : p.policy.honest = true)
    (hts : p.scores.get p.chaintip = some tipSc)
    (hhp : tipSc.isHeadPath = true)
    (hcv : tipSc.cumDiffScore = some v)
    (hv : 0 < v)
    (hun : p.unscored.get p.chaintip = none)
    (hinv : invokePoolAgent e p blocks fuel = some (d, sc2))
    (hne : d.chaintip ≠ some p.chaintip) :
    ∃ t m sc, d.chaintip = some t ∧ d.scores = some m ∧ m.get t = some sc ∧
      (v < jsNum sc.cumDiffScore ∨
        (e.action = "RECV_OWN" ∧ sc.cumDiffScore = some v)) := by
  rw [invokePoolAgent] at hinv
  rcases hnl : e.newIds with _ | nl
  · simp only [hnl] at hinv
    cases hinv
  simp only [hnl] at hinv
  rcases hgl : nl.getLast? with _ | newTip
  · simp only [hgl] at hinv
    rcases hhd : nl.head? with _ | firstId
    · simp only [hhd] at hinv
      cases hinv
    · simp only [hhd] at hinv
      rcases hfb : blocks.get firstId with _ | fb
      · simp only [hfb] at hinv; cases hinv
      · simp only [hfb] at hinv; cases hinv
  simp only [hgl] at hinv
  by_cases halr : jsTruthyInt ((p.scores.get newTip).bind (·.cumDiffScore)) = true
  · rw [if_pos halr] at hinv
    have hd := (Prod.mk.injEq _ _ _ _).mp (Option.some.inj hinv)
    exfalso
    apply hne
    rw [← hd.1]
  · rw [if_neg halr] at hinv
    rcases hhd : nl.head? with _ | firstId
    · simp only [hhd] at hinv
      cases hinv
    simp only [hhd] at hinv
    rcases hfb : blocks.get firstId with _ | fb
    · simp only [hfb] at hinv
      cases hinv
    simp only [hfb] at hinv
    rcases hrb : resolveBranchLoop blocks e p nl fb.height fuel newTip
        ⟨p.scores, [], []⟩ [] [] with _ | q1
    · simp only [hrb] at hinv
      cases hinv
    simp only [hrb] at hinv
    obtain ⟨st1, w, a, r⟩ := q1
    rcases hsl : scoreLoop blocks w.reverse st1 with _ | st2
    · simp only [hsl] at hinv
      cases hinv
    simp only [hsl] at hinv
    rcases hdg : scoreDanglingChaintips blocks p.unscored st2 newTip
        with _ | st3
    · simp only [hdg] at hinv
      cases hinv
    simp only [hdg] at hinv
    have hinv0 : HeadInv p.chaintip tipSc ⟨p.scores, [], []⟩ :=
      ⟨hts, by simp, by simp [SMap.keys]⟩
    have hinv1 := resolveBranchLoop_inv blocks e p nl fb.height p.chaintip
      tipSc hhp fuel newTip _ [] [] st1 w a r hinv0 hrb
    have hinv2 := scoreLoop_inv blocks p.chaintip tipSc w.reverse st1 st2
      hinv1 hsl
    have hinv3 := scoreDanglingChaintips_inv blocks p.unscored st2 st3 newTip
      p.chaintip tipSc hun hinv2 hdg
    rw [if_pos hp] at hinv
    simp only [hinv3.1] at hinv
    have hvts : jsNum tipSc.cumDiffScore = v := by rw [hcv]; rfl
    rcases findHighestScore_spec st3.loc with hspec | ⟨t0, sc0, hspec, hmem0⟩
    · -- the fold never picked an entry: maxTip = (some 0, none)
      simp only [hspec] at hinv
      exfalso
      by_cases hact : e.action = "RECV_OWN"
      · rw [if_pos hact] at hinv
        by_cases hEq : (some 0 : Option Int) = tipSc.cumDiffScore
        · rw [hcv] at hEq
          have := Option.some.inj hEq
          omega
        · rw [if_neg hEq] at hinv
          by_cases hC : jsNum (some 0 : Option Int) > jsNum tipSc.cumDiffScore
          · rw [hvts] at hC
            have : jsNum (some 0 : Option Int) = 0 := rfl
            omega
          · rw [if_neg hC] at hinv
            rcases hlgn : st3.loc.get newTip with _ | ntSc
            · simp only [hlgn] at hinv
              cases hinv
            simp only [hlgn] at hinv
            rcases hpr : propagateHeadPathToScores blocks p st3 a
                { chaintip := some p.chaintip, honTip := none,
                  timestamp := some ntSc.localTime, scores := none,
                  broadcastIds := some [newTip],
                  requestIds := if r.isEmpty then none else some r } fuel
                with _ | st4
            · simp only [hpr] at hinv
              cases hinv
            simp only [hpr] at hinv
            have hd := (Prod.mk.injEq _ _ _ _).mp (Option.some.inj hinv)
            apply hne
            rw [← hd.1]
      · rw [if_neg hact] at hinv
        by_cases hC : jsNum (some 0 : Option Int) > jsNum tipSc.cumDiffScore
        · rw [hvts] at hC
          have : jsNum (some 0 : Option Int) = 0 := rfl
          omega
        · rw [if_neg hC] at hinv
          rcases hpr : propagateHeadPathToScores blocks p st3 a
              { chaintip := some p.chaintip, honTip := none,
                timestamp := none, scores := none, broadcastIds := some [],
                requestIds := if r.isEmpty then none else some r } fuel
              with _ | st4
          · simp only [hpr] at hinv
            cases hinv
          simp only [hpr] at hinv
          have hd := (Prod.mk.injEq _ _ _ _).mp (Option.some.inj hinv)
          apply hne
          rw [← hd.1]
    · -- an entry (t0, sc0) of the local scores won the fold
      simp only [hspec] at hinv
      have hget0 : st3.loc.get t0 = some sc0 :=
        SMap.mem_get_of_nodup hinv3.2.2 hmem0
      have hcum0 : CumAt st3.loc t0 sc0.cumDiffScore := ⟨sc0, hget0, rfl⟩
      by_cases hact : e.action = "RECV_OWN"
      · rw [if_pos hact] at hinv
        rcases hlgn : st3.loc.get newTip with _ | ntSc
        · simp only [hlgn] at hinv
          cases hinv
        simp only [hlgn] at hinv
        by_cases hEq : sc0.cumDiffScore = tipSc.cumDiffScore
        · rw [if_pos hEq] at hinv
          rcases hpr : propagateHeadPathToScores blocks p st3 a
              { chaintip := some t0, honTip := none,
                timestamp := some ntSc.localTime, scores := none,
                broadcastIds := some [newTip],
                requestIds := if r.isEmpty then none else some r } fuel
              with _ | st4
          · simp only [hpr] at hinv
            cases hinv
          simp only [hpr] at hinv
          have hd := (Prod.mk.injEq _ _ _ _).mp (Option.some.inj hinv)
          have hc4 := propagateHeadPathToScores_cum blocks p st3 a _ fuel st4
            t0 sc0.cumDiffScore hinv3.2.2 hcum0 hpr
          obtain ⟨sc4, hget4, hcum4⟩ := hc4.2
          refine ⟨t0, st4.loc, sc4, ?_, ?_, hget4, ?_⟩
          · rw [← hd.1]
          · rw [← hd.1]
          · right
            exact ⟨hact, by rw [hcum4, hEq, hcv]⟩
        · rw [if_neg hEq] at hinv
          by_cases hC : jsNum sc0.cumDiffScore > jsNum tipSc.cumDiffScore
          · rw [if_pos hC] at hinv
            rcases hpr : propagateHeadPathToScores blocks p st3 a
                { chaintip := some t0, honTip := none,
                  timestamp := some ntSc.localTime, scores := none,
                  broadcastIds := some [newTip],
                  requestIds := if r.isEmpty then none else some r } fuel
                with _ | st4
            · simp only [hpr] at hinv
              cases hinv
            simp only [hpr] at hinv
            have hd := (Prod.mk.injEq _ _ _ _).mp (Option.some.inj hinv)
            have hc4 := propagateHeadPathToScores_cum blocks p st3 a _ fuel st4
              t0 sc0.cumDiffScore hinv3.2.2 hcum0 hpr
            obtain ⟨sc4, hget4, hcum4⟩ := hc4.2
            refine ⟨t0, st4.loc, sc4, ?_, ?_, hget4, ?_⟩
            · rw [← hd.1]
            · rw [← hd.1]
            · left
              rw [hcum4]
              rw [hvts] at hC
              exact hC
          · rw [if_neg hC] at hinv
            rcases hpr : propagateHeadPathToScores blocks p st3 a
                { chaintip := some p.chaintip, honTip := none,
                  timestamp := some ntSc.localTime, scores := none,
                  broadcastIds := some [newTip],
                  requestIds := if r.isEmpty then none else some r } fuel
                with _ | st4
            · simp only [hpr] at hinv
              cases hinv
            simp only [hpr] at hinv
            have hd := (Prod.mk.injEq _ _ _ _).mp (Option.some.inj hinv)
            exfalso
            apply hne
            rw [← hd.1]
      · rw [if_neg hact] at hinv
        by_cases hC : jsNum sc0.cumDiffScore > jsNum tipSc.cumDiffScore
        · rw [if_pos hC] at hinv
          rcases hpr : propagateHeadPathToScores blocks p st3 a
              { chaintip := some t0, honTip := none,
                timestamp := none, scores := none, broadcastIds := some [],
                requestIds := if r.isEmpty then none else some r } fuel
              with _ | st4
          · simp only [hpr] at hinv
            cases hinv
          simp only [hpr] at hinv
          have hd := (Prod.mk.injEq _ _ _ _).mp (Option.some.inj hinv)
          have hc4 := propagateHeadPathToScores_cum blocks p st3 a _ fuel st4
            t0 sc0.cumDiffScore hinv3.2.2 hcum0 hpr
          obtain ⟨sc4, hget4, hcum4⟩ := hc4.2
          refine ⟨t0, st4.loc, sc4, ?_, ?_, hget4, ?_⟩
          · rw [← hd.1]
          · rw [← hd.1]
          · left
            rw [hcum4]
            rw [hvts] at hC
            exact hC
        · rw [if_neg hC] at hinv
          rcases hpr : propagateHeadPathToScores blocks p st3 a
              { chaintip := some p.chaintip, honTip := none,
                timestamp := none, scores := none, broadcastIds := some [],
                requestIds := if r.isEmpty then none else some r } fuel
              with _ | st4
          · simp only [hpr] at hinv
            cases hinv
          simp only [hpr] at hinv
          have hd := (Prod.mk.injEq _ _ _ _).mp (Option.some.inj hinv)
          exfalso
          apply hne
          rw [← hd.1]

/-- **C10** (implicit).  An honest pool's agent never lowers the score of the
pool's head.  (1) Per invocation: if the pool is honest, its chaintip's score
object is a head-path score with positive `cumDiffScore` `v` and is not
pending in `unscored`, then whenever the returned `Decision.chaintip` differs
from `pool.chaintip` it names a tip whose `cumDiffScore` in the returned
scores is strictly greater than `v` — except on a `RECV_OWN` event, where
equality is also possible (the own-block tie preference `maxTip ===
ptip.cumDiffScore`).  (2)–(3) Integration preserves this into the pool's
view: merging the returned scores stores exactly that score under the new
tip, and the chaintip integration step adopts exactly the `Decision`'s
chaintip — so across any sequence of honest invocations and integrations the
head's `cumDiffScore` never decreases. -/
theorem C10_honest_head_score_monotone :
    (∀ e p blocks fuel d sc2 tipSc v,
        p.policy.honest = true →
        p.scores.get p.chaintip = some tipSc →
        tipSc.isHeadPath = true →
        tipSc.cumDiffScore = some v →
        0 < v →
        p.unscored.get p.chaintip = none →
        invokePoolAgent e p blocks fuel = some (d, sc2) →
        d.chaintip ≠ some p.chaintip →
        ∃ t m sc, d.chaintip = some t ∧ d.scores = some m ∧
          m.get t = some sc ∧
          (v < jsNum sc.cumDiffScore ∨
            (e.action = "RECV_OWN" ∧ sc.cumDiffScore = some v)))
  ∧ (∀ blocks2 p1 results m t sc p2,
        results.scores = some m →
        (SMap.keys m).Nodup →
        (t, sc) ∈ m →
        integrateScores blocks2 p1 results = some p2 →
        p2.scores.get t = some sc)
  ∧ (∀ blocks2 p2 e results dP2H dBlock p3 evs t,
        results.chaintip = some t →
        integrateChaintip blocks2 p2 e results dP2H dBlock = some (p3, evs) →
        p3.chaintip = t) := by
  refine ⟨?_, ?_, ?_⟩
  · intro e p blocks fuel d sc2 tipSc v hp hts hhp hcv hv hun hi hne
    exact invoke_honest_head e p blocks fuel d sc2 tipSc v hp hts hhp hcv hv
      hun hi hne
  · intro blocks2 p1 results m t sc p2 hm hnd hmem h
    exact integrateScores_get blocks2 p1 results m t sc p2 hm hnd hmem h
  · intro blocks2 p2 e results dP2H dBlock p3 evs t hc h
    exact integrateChaintip_tip blocks2 p2 e results dP2H dBlock p3 evs t hc h

/-- Witness: C10 evaluated on a concrete honest reorg — the pool on head
`6_P0` (cum score 110) receives the heavier branch `6_P1`/`7_P1` (cum score
122) and the decision's new chaintip strictly beats the old head. -/
theorem C10_honest_head_score_monotone_witness :
    (∃ t m sc,
      (⟨some "7_P1", none, none,
        some [("7_P1", ⟨3, 3, some 11, some 122, true, some "7_P1"⟩),
              ("6_P1", ⟨3, 3, some 11, some 111, true, some "7_P1"⟩),
              ("6_P0", ⟨1, 1, some 10, some 110, false, some "6_P0"⟩)],
        some [], none⟩ : Decision).chaintip = some t ∧
      (⟨some "7_P1", none, none,
        some [("7_P1", ⟨3, 3, some 11, some 122, true, some "7_P1"⟩),
              ("6_P1", ⟨3, 3, some 11, some 111, true, some "7_P1"⟩),
              ("6_P0", ⟨1, 1, some 10, some 110, false, some "6_P0"⟩)],
        some [], none⟩ : Decision).scores = some m ∧
      m.get t = some sc ∧
      ((110 : Int) < jsNum sc.cumDiffScore ∨
        (("RECV_OTHER" : String) = "RECV_OWN" ∧ sc.cumDiffScore = some 110)))
  ∧ (SMap.get
      [("7_P1", (⟨3, 3, some 11, some 122, true, some "7_P1"⟩ : Score))]
      "7_P1" = some ⟨3, 3, some 11, some 122, true, some "7_P1"⟩)
  ∧ (("6_P0" : String) = "6_P0") := by
  refine ⟨?_, ?_, ?_⟩
  · exact C10_honest_head_score_monotone.1
      ⟨3, "P0", "RECV_OTHER", none, some ["6_P1", "7_P1"]⟩
      ⟨"P0", "6_P0", none, none, 0,
        [("5_HH0", ⟨0, 0, some 10, some 100, true, some "5_HH0"⟩),
         ("6_P0", ⟨1, 1, some 10, some 110, true, some "6_P0"⟩)],
        [], [], ⟨true, 0, 0⟩⟩
      [("5_HH0", ⟨0, 5, "HH0", "5_HH0", "4_HH0", some 50, 10, 100, some 10, some true⟩),
       ("6_P0", ⟨1, 6, "P0", "6_P0", "5_HH0", some 60, 10, 110, some 10, some true⟩),
       ("6_P1", ⟨1, 6, "P1", "6_P1", "5_HH0", some 61, 11, 111, some 11, some true⟩),
       ("7_P1", ⟨2, 7, "P1", "7_P1", "6_P1", some 72, 11, 122, some 11, some true⟩)]
      100
      ⟨some "7_P1", none, none,
        some [("7_P1", ⟨3, 3, some 11, some 122, true, some "7_P1"⟩),
              ("6_P1", ⟨3, 3, some 11, some 111, true, some "7_P1"⟩),
              ("6_P0", ⟨1, 1, some 10, some 110, false, some "6_P0"⟩)],
        some [], none⟩
      [("5_HH0", ⟨0, 0, some 10, some 100, true, some "5_HH0"⟩),
       ("6_P0", ⟨1, 1, some 10, some 110, false, some "6_P0"⟩)]
      ⟨1, 1, some 10, some 110, true, some "6_P0"⟩ 110
      rfl (by with_unfolding_all rfl) rfl rfl (by norm_num) rfl
      (by with_unfolding_all decide) (by with_unfolding_all decide)
  · exact C10_honest_head_score_monotone.2.1
      [("7_P1", ⟨2, 7, "P1", "7_P1", "6_P1", some 72, 11, 122, some 11, some true⟩)]
      ⟨"P0", "6_P0", none, none, 0, [], [], [], ⟨true, 0, 0⟩⟩
      ⟨none, none, none,
        some [("7_P1", ⟨3, 3, some 11, some 122, true, some "7_P1"⟩)],
        none, none⟩
      [("7_P1", ⟨3, 3, some 11, some 122, true, some "7_P1"⟩)]
      "7_P1" ⟨3, 3, some 11, some 122, true, some "7_P1"⟩
      ⟨"P0", "6_P0", none, none, 0,
        [("7_P1", ⟨3, 3, some 11, some 122, true, some "7_P1"⟩)],
        [], [], ⟨true, 0, 0⟩⟩
      rfl (by simp [SMap.keys]) (by simp) (by with_unfolding_all rfl)
  · exact C10_honest_head_score_monotone.2.2
      [("7_P1", ⟨2, 7, "P1", "7_P1", "6_P1", some 72, 11, 122, some 11, some true⟩)]
      ⟨"P0", "6_P0", none, none, 0, [], [], [], ⟨true, 0, 0⟩⟩
      ⟨3, "P0", "RECV_OTHER", none, some ["7_P1"]⟩
      ⟨some "6_P0", none, none, none, none, none⟩
      1 2
      ⟨"P0", "6_P0", none, none, 0, [], [], [], ⟨true, 0, 0⟩⟩
      [] "6_P0"
      rfl (by with_unfolding_all rfl)

end MoneroSim
